import Mathlib

/-!
# A verification development for the `requests` HTTP helper

The Go package wraps `net/http`: a call is described by a list of
`RequestOption` closures which mutate an `*http.Request` and the shared
`*http.Client`, the call is executed, and the response is read through a small
set of extraction methods.

Go strings are modelled as Lean strings (sequences of code points, i.e. Go
strings that hold valid UTF-8).  Pointers are modelled by explicit state
passing: an option is a function on the state reachable from its two pointer
arguments.  Choices the Go runtime makes on its own (the iteration order of a
`map`, the random multipart boundary) appear as explicit data: a `Map` is the
list of its entries in the order the `range` loop visits them, and the
multipart option carries the boundary its writer drew.
-/

namespace Requests

/-! ## Strings (package `strings`) -/

/-- White space in the sense of Go's `unicode.IsSpace`, which `strings.TrimSpace` uses:
the Latin-1 spaces and the code points with the Unicode White_Space property. -/
def isSpace (c : Char) : Bool :=
  let n := c.toNat
  n == 0x09 || n == 0x0A || n == 0x0B || n == 0x0C || n == 0x0D || n == 0x20 ||
  n == 0x85 || n == 0xA0 || n == 0x1680 || (0x2000 ≤ n && n ≤ 0x200A) ||
  n == 0x2028 || n == 0x2029 || n == 0x202F || n == 0x205F || n == 0x3000

/-- Go's `strings.TrimSpace` on the characters of a string: leading white space is
dropped, then trailing white space. -/
def trimSpaceChars (s : List Char) : List Char :=
  (s.dropWhile isSpace).rdropWhile isSpace

/-- Go's `strings.TrimSpace`. -/
def TrimSpace (s : String) : String :=
  String.mk (trimSpaceChars s.toList)

/-- Go's `strings.Split(s, sep)` for a one-character separator, on the characters of `s`:
the pieces between successive separators, one more piece than there are separators. -/
def splitChars (sep : Char) : List Char → List (List Char)
  | [] => [[]]
  | c :: cs =>
    if c = sep then [] :: splitChars sep cs
    else
      match splitChars sep cs with
      | [] => [[c]]
      | seg :: rest => (c :: seg) :: rest

/-- Go's `strings.Index(s, sep)` for a one-character separator, on the characters of `s`:
the position of the first occurrence, `none` where Go returns `-1`. -/
def indexChars (sep : Char) : List Char → Option Nat
  | [] => none
  | c :: cs => if c = sep then some 0 else (indexChars sep cs).map (· + 1)

/-! ## Cookies recovered from the request header -/

/-- The two fields of `http.Cookie` that `RequestCookies` fills in. -/
structure Cookie where
  Name : String
  Value : String
  deriving DecidableEq, Repr

/-- The body of the `for` loop of `RequestCookies` for one `part`: the cookies appended
to the result (none when the loop body hits a `continue`).  Positions count characters where
Go counts bytes; `=` is a single byte, so `eqIndex < len(part)-1` says in both countings that
something follows the `=`. -/
def cookieOfPart (part : List Char) : List Cookie :=
  let part := trimSpaceChars part
  if part = [] then []
  else
    match indexChars '=' part with
    | none => []
    | some eqIndex =>
      let name := trimSpaceChars (part.take eqIndex)
      let value := if eqIndex < part.length - 1 then trimSpaceChars (part.drop (eqIndex + 1)) else []
      [{ Name := String.mk name, Value := String.mk value }]

/-- The parsing done by `RequestCookies` on the value of the `Cookie` header. -/
def parseCookieHeader (cookieHeader : String) : List Cookie :=
  if cookieHeader = "" then []
  else (splitChars ';' cookieHeader.toList).foldl (fun cookies part => cookies ++ cookieOfPart part) []

/-! ## More of package `strings`, and the header-key canonicalisation of `net/textproto` -/

/-- The rune map of Go's `unicode.ToLower` as far as a comparison with an ASCII literal can
tell: ASCII capitals, and the two other code points whose lower case is an ASCII letter
(U+0130 gives `i`, U+212A gives `k`).  Every other code point outside ASCII has a lower
case outside ASCII and is left as it is. -/
def toLowerRune (c : Char) : Char :=
  if c.toNat = 0x130 then 'i'
  else if c.toNat = 0x212A then 'k'
  else c.toLower

/-- Go's `strings.ToLower`. -/
def ToLower (s : String) : String :=
  String.mk (s.toList.map toLowerRune)

/-- The token characters of RFC 7230, as in `validHeaderFieldByte` of `net/textproto`. -/
def validHeaderFieldByte (c : Char) : Bool :=
  c.isAlphanum || "!#$%&*+-.^_|~".toList.contains c || c.toNat == 0x27 || c.toNat == 0x60

/-- The rewriting loop of `canonicalMIMEHeaderKey`: a letter is made upper case at the start
and after a dash, lower case elsewhere. -/
def canonicalChars : Bool → List Char → List Char
  | _, [] => []
  | upper, c :: cs =>
    let d := if upper then c.toUpper else c.toLower
    d :: canonicalChars (d == '-') cs

/-- Go's `textproto.CanonicalMIMEHeaderKey`: a key made of token characters only is put in
canonical case, any other key is returned unchanged. -/
def CanonicalMIMEHeaderKey (s : String) : String :=
  if s.toList.all validHeaderFieldByte then String.mk (canonicalChars true s.toList) else s

/-! ## Data model -/

/-- Go `error` values, identified by their message. -/
abbrev Err := String

/-- Byte sequences (`[]byte`, and the content of readers and files). -/
abbrev Bytes := List UInt8

/-- The bytes of a Go string, `[]byte(s)`. -/
def utf8 (s : String) : Bytes :=
  s.toList.flatMap String.utf8EncodeChar

/-- A value of Go's `any`: the kinds the package's callers pass, and `other` for a value
of any other dynamic type, carried with its `%v` rendering. -/
inductive Value where
  | str (s : String)
  | int (n : Int)
  | bool (b : Bool)
  | nil
  | other (text : String)
  deriving DecidableEq, Repr

/-- Go's `fmt.Sprintf("%v", value)`. -/
def Sprint : Value → String
  | .str s => s
  | .int n => toString n
  | .bool b => if b then "true" else "false"
  | .nil => "<nil>"
  | .other text => text

/-- The package's `type Map map[string]any`: the entries in the order a `range` loop over
the map visits them. -/
abbrev Map := List (String × Value)

/-- A parsed URL, `*url.URL`. -/
structure url.URL where
  text : String
  Host : String
  deriving DecidableEq, Repr

/-- The type `http.Header`, a `map[string][]string`. -/
abbrev http.Header := String → Option (List String)

/-- Go's `Header.Set`: the entry under the canonical key becomes the one-element list. -/
def http.Header.Set (h : http.Header) (key value : String) : http.Header :=
  fun k => if k = CanonicalMIMEHeaderKey key then some [value] else h k

/-- Go's `Header.Get`: the first value under the canonical key, `""` when there is none. -/
def http.Header.Get (h : http.Header) (key : String) : String :=
  match h (CanonicalMIMEHeaderKey key) with
  | some (v :: _) => v
  | _ => ""

/-- The fields of `http.Request` the package touches.  `Body` is `none` for a nil body and
otherwise holds the bytes the body reader yields. -/
structure http.Request where
  Method : String
  URL : url.URL
  Header : http.Header
  Host : String
  TransferEncoding : List String
  Body : Option Bytes
  ContentLength : Int

/-- A `tls.Config`: the verification flag and a selection of its other fields. -/
structure tls.Config where
  InsecureSkipVerify : Bool
  ServerName : String
  MinVersion : Nat
  MaxVersion : Nat
  NextProtos : List String
  deriving DecidableEq, Repr

/-- The zero value `tls.Config{}`. -/
def tls.Config.zero : tls.Config :=
  { InsecureSkipVerify := false, ServerName := "", MinVersion := 0, MaxVersion := 0, NextProtos := [] }

/-- An `http.Transport`: the three settings the package writes and a selection of the
others.  `Proxy` is `none` for a nil proxy function and `some u` for `http.ProxyURL(u)`. -/
structure http.Transport where
  Proxy : Option url.URL
  TLSClientConfig : Option tls.Config
  ForceAttemptHTTP2 : Bool
  DisableKeepAlives : Bool
  MaxIdleConns : Nat
  deriving DecidableEq, Repr

/-- The zero value `http.Transport{}`. -/
def http.Transport.zero : http.Transport :=
  { Proxy := none, TLSClientConfig := none, ForceAttemptHTTP2 := false,
    DisableKeepAlives := false, MaxIdleConns := 0 }

/-- The dynamic value of the interface field `client.Transport`: a `*http.Transport`, given
by the address of the object and its content, or a round tripper of another type.  (A nil
`*http.Transport` inside the interface, on which the options would panic, is left out.) -/
inductive http.RoundTripper where
  | transport (addr : Nat) (tr : http.Transport)
  | other (name : String)
  deriving DecidableEq, Repr

/-- The field `client.CheckRedirect`: the function `WithDisableRedirect` installs, or another. -/
inductive http.RedirectPolicy where
  | useLastResponse
  | other (name : String)
  deriving DecidableEq, Repr

/-- An `http.Client`.  `Transport`, `CheckRedirect` and `Jar` are `none` when nil; a jar is
given by the cookies it holds. -/
structure http.Client where
  Transport : Option http.RoundTripper
  CheckRedirect : Option http.RedirectPolicy
  Jar : Option (List Cookie)
  Timeout : Int
  deriving DecidableEq, Repr

/-- One `FileField` of the package; `File` is the number of the caller's open handle. -/
structure FileField where
  FieldName : String
  FileName : String
  File : Option Nat
  FilePath : String
  deriving DecidableEq, Repr

/-- The package's `type Files []FileField`. -/
abbrev Files := List FileField

/-- An open `*os.File` of the caller: the content of the file it was opened on, and the
read position the handle is at. -/
structure OpenFile where
  content : Bytes
  offset : Nat
  deriving DecidableEq, Repr

/-- What a read of the handle to the end of the file yields, as `io.Copy` does it: the bytes
from the read position on. -/
def OpenFile.rest (file : OpenFile) : Bytes :=
  file.content.drop file.offset

/-- The part of the operating system `WithMultipartFiles` works on: `disk path` is the
content of the file `os.Open(path)` opens (`none` when the open fails), `handles h` the
caller's open handle `h` (`none` once the handle is closed). -/
structure OS where
  disk : String → Option Bytes
  handles : Nat → Option OpenFile

/-- What an option can reach besides the request: the client, the operating system, and
the number of `http.Transport` objects allocated so far, which is the address the next
one gets. -/
structure Env where
  client : http.Client
  os : OS
  transports : Nat

/-- The state an option runs on: what its two pointer arguments and the operating system
give access to. -/
structure State where
  req : http.Request
  env : Env

/-- The package's `type RequestOption func(*http.Request, *http.Client) error`: the state
left behind, and the error returned (`none` for nil). -/
abbrev RequestOption := State → State × Option Err

/-- What a read does once `Close` has been called on a body, which is up to the
`io.ReadCloser` the response holds: it fails (the bodies the transport of `net/http` hands
out), it reports the end of the stream (`http.NoBody`), or it goes on reading, `Close` being
a no-op (`io.NopCloser`).  These three kinds of body are the ones considered here. -/
inductive AfterClose where
  | fails
  | endOfStream
  | reads
  deriving DecidableEq, Repr

/-- The body of an `http.Response`, an `io.ReadCloser`: the bytes not yet read, the error a
read reports once they are used up (`none` for a clean end of stream), whether `Close` has
been called, and what a read does after that. -/
structure Body where
  unread : Bytes
  fault : Option Err
  closed : Bool
  afterClose : AfterClose
  deriving DecidableEq, Repr

/-- The fields of `http.Response` the package reads. -/
structure http.Response where
  StatusCode : Nat
  Body : Body
  Request : http.Request

/-- The package's `type Response struct { *http.Response }`. -/
structure Response extends http.Response

/-- The functions of the Go standard library the package calls and this development does
not look into: `url.Parse`, `json.Marshal`, `xml.Marshal`, `(*http.Client).Do`, and the
`Decode` of a fresh JSON or XML decoder on a stream holding the given bytes, which yields
the decoded value or an error together with the number of bytes it took off the stream. -/
structure Lib where
  urlParse : String → Except Err url.URL
  jsonMarshal : Value → Except Err Bytes
  xmlMarshal : Value → Except Err Bytes
  clientDo : http.Request → http.Client → Except Err http.Response
  jsonDecode : Bytes → Except Err Value × Nat
  xmlDecode : Bytes → Except Err Value × Nat

/-! ## Package `net/url`: form encoding -/

/-- The digits of `upperhex` in `net/url`. -/
def upperhex (n : Nat) : Char :=
  "0123456789ABCDEF".toList.getD n '0'

/-- Go's `url.QueryEscape` on one byte: unreserved characters stay, a space becomes `+`,
every other byte is written as `%XX`. -/
def queryEscapeByte (b : UInt8) : List Char :=
  let c := Char.ofNat b.toNat
  if c.isAlphanum || c == '-' || c == '_' || c == '.' || c == '~' then [c]
  else if c == ' ' then ['+']
  else ['%', upperhex (b.toNat / 16), upperhex (b.toNat % 16)]

/-- Go's `url.QueryEscape`. -/
def QueryEscape (s : String) : String :=
  String.mk ((utf8 s).flatMap queryEscapeByte)

/-- The type `url.Values` as the package fills it, one value per key. -/
abbrev url.Values := List (String × String)

/-- Go's `Values.Set`. -/
def url.Values.Set (v : url.Values) (key value : String) : url.Values :=
  (key, value) :: v.filter (fun e => e.1 ≠ key)

/-- Go's `Values.Encode`: `key=value` pairs, escaped, sorted by key and joined by `&`. -/
def url.Values.Encode (v : url.Values) : String :=
  "&".intercalate ((v.mergeSort (fun a b => decide (a.1 ≤ b.1))).map
    (fun e => QueryEscape e.1 ++ "=" ++ QueryEscape e.2))

/-! ## Package `mime/multipart`: the writer

The writer of the package writes to a `bytes.Buffer`, whose writes do not fail; so
`CreateFormFile`, `WriteField` and `Close` always return a nil error here, and the branches
of `WithMultipartFiles` for their errors are never taken. -/

/-- A `multipart.Writer` on a `bytes.Buffer`: the boundary, the buffer content, and whether
a part has been created (`lastpart != nil`). -/
structure multipart.Writer where
  boundary : String
  buf : Bytes
  lastpart : Bool
  deriving DecidableEq, Repr

/-- Go's `multipart.NewWriter` on an empty buffer, with the boundary it drew. -/
def multipart.NewWriter (boundary : String) : multipart.Writer :=
  { boundary := boundary, buf := [], lastpart := false }

/-- Go's `escapeQuotes` of `mime/multipart`: a backslash and a double quote get a backslash
in front, a carriage return is written `%0D` and a line feed `%0A`. -/
def escapeQuotes (s : String) : String :=
  String.mk (s.toList.flatMap (fun c =>
    if c = '\\' then ['\\', '\\']
    else if c = '"' then ['\\', '"']
    else if c = '\r' then ['%', '0', 'D']
    else if c = '\n' then ['%', '0', 'A']
    else [c]))

/-- Go's `Writer.CreatePart`, the header lines given in key order: the delimiter line, the
header lines and an empty line go to the buffer. -/
def multipart.Writer.CreatePart (w : multipart.Writer) (header : List (String × String)) : multipart.Writer :=
  let delimiter := (if w.lastpart then "\r\n--" else "--") ++ w.boundary ++ "\r\n"
  let lines := String.join (header.map (fun kv => kv.1 ++ ": " ++ kv.2 ++ "\r\n"))
  { w with buf := w.buf ++ utf8 (delimiter ++ lines ++ "\r\n"), lastpart := true }

/-- Go's `Writer.CreateFormFile`. -/
def multipart.Writer.CreateFormFile (w : multipart.Writer) (fieldname filename : String) : multipart.Writer :=
  w.CreatePart
    [("Content-Disposition",
        "form-data; name=\"" ++ escapeQuotes fieldname ++ "\"; filename=\"" ++ escapeQuotes filename ++ "\""),
     ("Content-Type", "application/octet-stream")]

/-- A write to the part created last. -/
def multipart.Writer.Write (w : multipart.Writer) (p : Bytes) : multipart.Writer :=
  { w with buf := w.buf ++ p }

/-- Go's `Writer.WriteField`: `CreateFormField`, then the value is written to the part. -/
def multipart.Writer.WriteField (w : multipart.Writer) (fieldname value : String) : multipart.Writer :=
  (w.CreatePart [("Content-Disposition", "form-data; name=\"" ++ escapeQuotes fieldname ++ "\"")]).Write
    (utf8 value)

/-- Go's `Writer.Close`: the closing delimiter goes to the buffer. -/
def multipart.Writer.Close (w : multipart.Writer) : multipart.Writer :=
  { w with buf := w.buf ++ utf8 ("\r\n--" ++ w.boundary ++ "--\r\n") }

/-- Go's `Writer.FormDataContentType`. -/
def multipart.Writer.FormDataContentType (w : multipart.Writer) : String :=
  let b := if w.boundary.toList.any (fun c => "()<>@,;:\\\"/[]?= ".toList.contains c)
    then "\"" ++ w.boundary ++ "\"" else w.boundary
  "multipart/form-data; boundary=" ++ b

/-! ## The options -/

/-- The package's `closeFile` on a caller's handle. -/
def closeFile (os : OS) (file : Nat) : OS :=
  { os with handles := fun h => if h = file then none else os.handles h }

/-- The package's `ensureTransport`: afterwards `client.Transport` holds a `*http.Transport`,
a new zero one unless it held one before. -/
def ensureTransport (env : Env) : Env :=
  let env1 : Env :=
    match env.client.Transport with
    | none =>
      { env with
        client := { env.client with Transport := some (.transport env.transports http.Transport.zero) }
        transports := env.transports + 1 }
    | some _ => env
  match env1.client.Transport with
  | some (.transport _ _) => env1
  | _ =>
    { env1 with
      client := { env1.client with Transport := some (.transport env1.transports http.Transport.zero) }
      transports := env1.transports + 1 }

/-- A write through the pointer `tr` that `ensureTransport` returned: the transport object
held by the client is updated in place. -/
def writeTransport (env : Env) (f : http.Transport → http.Transport) : Env :=
  match env.client.Transport with
  | some (.transport addr tr) =>
    { env with client := { env.client with Transport := some (.transport addr (f tr)) } }
  | _ => env

/-- The three assignments that end every body option; `int64(len(...))` is the length itself,
a length being below `2^63`. -/
def setBody (req : http.Request) (body : Bytes) (contentType : String) : http.Request :=
  { req with
    Body := some body
    ContentLength := Int.ofNat body.length
    Header := req.Header.Set "Content-Type" contentType }

/-- The package's `WithStringBody`. -/
def WithStringBody (body : String) : RequestOption := fun st =>
  ({ st with req := setBody st.req (utf8 body) "text/plain" }, none)

/-- The package's `WithXMLBody`. -/
def WithXMLBody (lib : Lib) (body : Value) : RequestOption := fun st =>
  match lib.xmlMarshal body with
  | .error err => (st, some err)
  | .ok xmlData => ({ st with req := setBody st.req xmlData "application/xml" }, none)

/-- The package's `WithJSONBody`. -/
def WithJSONBody (lib : Lib) (body : Value) : RequestOption := fun st =>
  match lib.jsonMarshal body with
  | .error err => (st, some err)
  | .ok jsonData => ({ st with req := setBody st.req jsonData "application/json" }, none)

/-- The package's `WithFormBody`. -/
def WithFormBody (data : Map) : RequestOption := fun st =>
  let formData : url.Values := data.foldl (fun formData kv => formData.Set kv.1 (Sprint kv.2)) []
  let encodedData := formData.Encode
  ({ st with req := setBody st.req (utf8 encodedData) "application/x-www-form-urlencoded" }, none)

/-- The first loop of `WithMultipartFiles`, over the file fields: the operating system it
leaves behind, and the writer, or the error the option returns.  A file opened from a path
is read and closed within its iteration and leaves no trace in the handle table. -/
def writeFiles : Files → multipart.Writer → OS → OS × Except Err multipart.Writer
  | [], writer, os => (os, .ok writer)
  | fileField :: files, writer, os =>
    match fileField.File with
    | none =>
      if fileField.FilePath = "" then writeFiles files writer os
      else
        match os.disk fileField.FilePath with
        | none => (os, .error ("open " ++ fileField.FilePath ++ ": no such file or directory"))
        | some content =>
          writeFiles files ((writer.CreateFormFile fileField.FieldName fileField.FileName).Write content) os
    | some file =>
      match os.handles file with
      | none => (closeFile os file, .error "read: file already closed")
      | some opened =>
        writeFiles files ((writer.CreateFormFile fileField.FieldName fileField.FileName).Write opened.rest)
          (closeFile os file)

/-- The package's `WithMultipartFiles`, with the boundary its `multipart.NewWriter` draws. -/
def WithMultipartFiles (boundary : String) (files : Files) (otherFields : Map) : RequestOption := fun st =>
  match writeFiles files (multipart.NewWriter boundary) st.env.os with
  | (os, .error err) => ({ st with env := { st.env with os := os } }, some err)
  | (os, .ok writer) =>
    let writer := otherFields.foldl (fun writer kv => writer.WriteField kv.1 (Sprint kv.2)) writer
    let writer := writer.Close
    ({ req := setBody st.req writer.buf writer.FormDataContentType, env := { st.env with os := os } }, none)

/-- The body of the loop of `WithHeaders` for one entry of the map. -/
def setHeader (req : http.Request) (kv : String × Value) : http.Request :=
  if ToLower (TrimSpace kv.1) = "host" then
    { req with Host := Sprint kv.2 }
  else if ToLower (TrimSpace kv.1) = "transfer-encoding" then
    { req with TransferEncoding := [Sprint kv.2] }
  else
    { req with Header := req.Header.Set kv.1 (Sprint kv.2) }

/-- The package's `WithHeaders`. -/
def WithHeaders (headers : Map) : RequestOption := fun st =>
  ({ st with req := headers.foldl setHeader st.req }, none)

/-- The package's `WithTimeout`. -/
def WithTimeout (timeout : Int) : RequestOption := fun st =>
  ({ st with env := { st.env with client := { st.env.client with Timeout := timeout } } }, none)

/-- The package's `WithDisableRedirect`. -/
def WithDisableRedirect : RequestOption := fun st =>
  ({ st with env := { st.env with client := { st.env.client with CheckRedirect := some .useLastResponse } } }, none)

/-- The package's `WithProxy`. -/
def WithProxy (lib : Lib) (proxyURL : String) : RequestOption := fun st =>
  match lib.urlParse proxyURL with
  | .error err => (st, some err)
  | .ok proxy =>
    let env := ensureTransport st.env
    ({ st with env := writeTransport env (fun tr => { tr with Proxy := some proxy }) }, none)

/-- The package's `WithSkipSSLVerify`. -/
def WithSkipSSLVerify : RequestOption := fun st =>
  let env := ensureTransport st.env
  ({ st with env := writeTransport env (fun tr =>
      match tr.TLSClientConfig with
      | none => { tr with TLSClientConfig := some { tls.Config.zero with InsecureSkipVerify := true } }
      | some config => { tr with TLSClientConfig := some { config with InsecureSkipVerify := true } }) }, none)

/-- The package's `WithHTTP2`. -/
def WithHTTP2 : RequestOption := fun st =>
  let env := ensureTransport st.env
  ({ st with env := writeTransport env (fun tr => { tr with ForceAttemptHTTP2 := true }) }, none)

/-- The package's `WithCookieJar`; `cookiejar.New(nil)` does not fail. -/
def WithCookieJar : RequestOption := fun st =>
  ({ st with env := { st.env with client := { st.env.client with Jar := some [] } } }, none)

/-! ## The dispatcher -/

/-- Go's `validMethod` of `net/http`: a non-empty token. -/
def validMethod (method : String) : Bool :=
  method.length > 0 && method.toList.all validHeaderFieldByte

/-- Go's `http.NewRequest(method, url, nil)`: an empty method stands for `GET`, the method
must be a token and the URL must parse; the request has no header and no body. -/
def NewRequest (lib : Lib) (method url : String) : Except Err http.Request :=
  let method := if method = "" then "GET" else method
  if !validMethod method then .error ("net/http: invalid method " ++ method)
  else
    match lib.urlParse url with
    | .error err => .error err
    | .ok u =>
      .ok { Method := method, URL := u, Header := fun _ => none, Host := u.Host,
            TransferEncoding := [], Body := none, ContentLength := 0 }

/-- The `for` loop of `Request` over the options: the state when the loop is left, and the
error of the option that made `Request` return (`none` when the loop ran to its end). -/
def applyOptions : List RequestOption → State → State × Option Err
  | [], st => (st, none)
  | option :: options, st =>
    match option st with
    | (st1, some err) => (st1, some err)
    | (st1, none) => applyOptions options st1

/-- What a call of `Request` leaves behind: its two results (the response, or the error with
a nil response), the environment, and the arguments of the call of `client.Do` it made
(`none` when it made none). -/
structure Outcome where
  result : Except Err Response
  env : Env
  sent : Option (http.Request × http.Client)

/-- The package's `Request`, on the environment `http.DefaultClient` is part of. -/
def Request (lib : Lib) (method url : String) (options : List RequestOption) (env : Env) : Outcome :=
  match NewRequest lib method url with
  | .error err => { result := .error err, env := env, sent := none }
  | .ok req =>
    match applyOptions options { req := req, env := env } with
    | (st, some err) => { result := .error err, env := st.env, sent := none }
    | (st, none) =>
      match lib.clientDo st.req st.env.client with
      | .error err => { result := .error err, env := st.env, sent := some (st.req, st.env.client) }
      | .ok resp => { result := .ok { toResponse := resp }, env := st.env, sent := some (st.req, st.env.client) }

/-- The package's `Head`. -/
def Head (lib : Lib) (url : String) (options : List RequestOption) (env : Env) : Outcome :=
  Request lib "HEAD" url options env

/-- The package's `Options`. -/
def Options (lib : Lib) (url : String) (options : List RequestOption) (env : Env) : Outcome :=
  Request lib "OPTIONS" url options env

/-- The package's `Get`. -/
def Get (lib : Lib) (url : String) (options : List RequestOption) (env : Env) : Outcome :=
  Request lib "GET" url options env

/-- The package's `Post`. -/
def Post (lib : Lib) (url : String) (options : List RequestOption) (env : Env) : Outcome :=
  Request lib "POST" url options env

/-- The package's `Put`. -/
def Put (lib : Lib) (url : String) (options : List RequestOption) (env : Env) : Outcome :=
  Request lib "PUT" url options env

/-- The package's `Patch`. -/
def Patch (lib : Lib) (url : String) (options : List RequestOption) (env : Env) : Outcome :=
  Request lib "PATCH" url options env

/-- The package's `Delete`. -/
def Delete (lib : Lib) (url : String) (options : List RequestOption) (env : Env) : Outcome :=
  Request lib "DELETE" url options env

/-! ## The response -/

/-- The `Close` of a response body. -/
def Body.Close (b : Body) : Body :=
  { b with closed := true }

/-- Whether a read of the body reaches the stream: as long as `Close` has not been called,
and after that on a body whose `Close` is a no-op. -/
def Body.readable (b : Body) : Bool :=
  !b.closed || b.afterClose == .reads

/-- The error of a read that does not reach the stream, `none` where the read reports the end
of the stream instead. -/
def Body.readAfterClose (b : Body) : Option Err :=
  if b.afterClose = .fails then some "http: read on closed response body" else none

/-- Go's `io.ReadAll` on a response body: the body afterwards, the bytes read and the error. -/
def ReadAll (b : Body) : Body × Bytes × Option Err :=
  if b.readable then ({ b with unread := [] }, b.unread, b.fault)
  else (b, [], b.readAfterClose)

/-- The `Decode` of a fresh decoder on a response body: the body afterwards, and the value
stored in the destination or the error. -/
def decodeBody (decode : Bytes → Except Err Value × Nat) (b : Body) : Body × Except Err Value :=
  if b.readable then
    let (result, n) := decode b.unread
    ({ b with unread := b.unread.drop n }, result)
  else (b, .error (b.readAfterClose.getD "EOF"))

/-- The package's `Response.Text`: the response afterwards, and the two results (the bytes
of the string, and the error). -/
def Response.Text (r : Response) : Response × Bytes × Option Err :=
  let (b, body, err) := ReadAll r.Body
  let r1 : Response := { r with Body := b.Close }
  match err with
  | some e => (r1, [], some e)
  | none => (r1, body, none)

/-- The package's `Response.Bytes`. -/
def Response.Bytes (r : Response) : Response × Bytes × Option Err :=
  let (b, body, err) := ReadAll r.Body
  ({ r with Body := b.Close }, body, err)

/-- The package's `Response.JSON`: the response afterwards, and the value decoded into the
destination or the error returned. -/
def Response.JSON (lib : Lib) (r : Response) : Response × Except Err Value :=
  let (b, result) := decodeBody lib.jsonDecode r.Body
  ({ r with Body := b.Close }, result)

/-- The package's `Response.XML`. -/
def Response.XML (lib : Lib) (r : Response) : Response × Except Err Value :=
  let (b, result) := decodeBody lib.xmlDecode r.Body
  ({ r with Body := b.Close }, result)

/-- The package's `Response.RequestCookies`. -/
def Response.RequestCookies (r : Response) : List Cookie :=
  parseCookieHeader (r.Request.Header.Get "Cookie")

/-! ## Specification-side definitions and example data

The definitions below are not translations of code.  They word what the specification says
(`cookieOfSegment`, `settingsAfter`, `encodeMultipart`, ...), name the options a statement
ranges over (`TransportOption`, `BodyOption`, `Extraction`), or are concrete data for the
examples. -/

/-- The loop body of `RequestCookies` in closed form, on an untrimmed segment: a segment
holding `=` gives the cookie made of the trimmed text before the first `=` and the trimmed
text after it, any other segment gives none.  (An auxiliary of the proofs; what trimming
means is said by `IsTrimOf`.) -/
def cookieOfSegment (segment : List Char) : Option Cookie :=
  if '=' ∈ segment then
    some { Name := String.mk (trimSpaceChars (segment.takeWhile (· != '=')))
           Value := String.mk (trimSpaceChars ((segment.dropWhile (· != '=')).drop 1)) }
  else none

/-- The `Cookie` header made of the pairs, each written `name=value`, joined by `"; "`. -/
def cookieHeaderOf (pairs : List (String × String)) : String :=
  "; ".intercalate (pairs.map (fun p => p.1 ++ "=" ++ p.2))

/-- No white space at either end of the string. -/
def edgeSpaceFree (s : String) : Bool :=
  s.toList.head?.all (fun c => !isSpace c) && s.toList.getLast?.all (fun c => !isSpace c)

/-- A URL for the examples. -/
def exampleURL : url.URL :=
  { text := "http://localhost:8080/", Host := "localhost:8080" }

/-- A request as `http.NewRequest` builds it, for the examples. -/
def exampleRequest : http.Request :=
  { Method := "GET", URL := exampleURL, Header := fun _ => none, Host := "localhost:8080",
    TransferEncoding := [], Body := none, ContentLength := 0 }

/-- A response to the example request sent with the given `Cookie` header, its body unread. -/
def exampleResponse (cookie : String) (body : Bytes) : Response :=
  { StatusCode := 200
    Body := { unread := body, fault := none, closed := false, afterClose := .fails }
    Request := { exampleRequest with Header := exampleRequest.Header.Set "Cookie" cookie } }

/-- The text `name=value` of one pair. -/
def pairChars (p : String × String) : List Char :=
  p.1.toList ++ '=' :: p.2.toList

/-- The conditions on one pair under which it comes back from the header unchanged. -/
def cleanPair (p : String × String) : Prop :=
  p.1 ≠ "" ∧ ';' ∉ p.1.toList ∧ '=' ∉ p.1.toList ∧ ';' ∉ p.2.toList ∧
    edgeSpaceFree p.1 = true ∧ edgeSpaceFree p.2 = true

instance (p : String × String) : Decidable (cleanPair p) := by
  unfold cleanPair
  infer_instance

/-- The state after the options have been applied one after the other, each to the state the
one before it left, whatever errors they returned. -/
def stateAfter (options : List RequestOption) (st : State) : State :=
  options.foldl (fun st option => (option st).1) st

/-- An instance of the library functions for the examples: a URL that starts with a colon
does not parse, marshalling writes the `%v` text, the server answers 200 with an empty body,
and the decoders fail on an empty stream and otherwise find the null value within their first
read of up to 512 bytes. -/
def exampleLib : Lib :=
  { urlParse := fun s =>
      if s.toList.head? = some ':' then .error "parse: missing protocol scheme" else .ok { text := s, Host := s }
    jsonMarshal := fun v => .ok (utf8 (Sprint v))
    xmlMarshal := fun v => .ok (utf8 (Sprint v))
    clientDo := fun req _ =>
      .ok { StatusCode := 200
            Body := { unread := [], fault := none, closed := false, afterClose := .fails }
            Request := req }
    jsonDecode := fun b => if b = [] then (.error "EOF", 0) else (.ok .nil, min b.length 512)
    xmlDecode := fun b => if b = [] then (.error "EOF", 0) else (.ok .nil, min b.length 512) }

/-- The zero value `http.Client{}`, which `http.DefaultClient` points to at program start. -/
def http.Client.zero : http.Client :=
  { Transport := none, CheckRedirect := none, Jar := none, Timeout := 0 }

/-- An environment for the examples: the default client, one file on disk, and two open
handles, the first at the start of its file, the second two bytes into it. -/
def exampleEnv : Env :=
  { client := http.Client.zero
    os := { disk := fun path => if path = "/tmp/11.txt" then some [104, 105] else none
            handles := fun h =>
              if h = 3 then some { content := [97, 98, 99], offset := 0 }
              else if h = 5 then some { content := [49, 50, 51], offset := 2 }
              else none }
    transports := 0 }

/-- The `*http.Transport` the client holds, with its address, if it holds one. -/
def transportOf (client : http.Client) : Option (Nat × http.Transport) :=
  match client.Transport with
  | some (.transport addr tr) => some (addr, tr)
  | _ => none

/-- The TLS configuration on the client's transport, if there is one. -/
def tlsConfigOf (client : http.Client) : Option tls.Config :=
  match transportOf client with
  | some (_, tr) => tr.TLSClientConfig
  | none => none

/-- The three options of the package that configure the transport. -/
inductive TransportOption where
  | proxy (proxyURL : String)
  | skipSSLVerify
  | http2
  deriving DecidableEq, Repr

/-- The option of the package a transport option stands for. -/
def TransportOption.toOption (lib : Lib) : TransportOption → RequestOption
  | .proxy proxyURL => WithProxy lib proxyURL
  | .skipSSLVerify => WithSkipSSLVerify
  | .http2 => WithHTTP2

/-- Whether the setting an option makes is in force on the client. -/
def TransportOption.holds (lib : Lib) : TransportOption → http.Client → Bool
  | .proxy proxyURL, client =>
    match transportOf client, lib.urlParse proxyURL with
    | some (_, tr), .ok u => tr.Proxy == some u
    | _, _ => false
  | .skipSSLVerify, client => (tlsConfigOf client).any (fun config => config.InsecureSkipVerify)
  | .http2, client => (transportOf client).any (fun tr => tr.2.ForceAttemptHTTP2)

/-- The URL of the last `WithProxy` in the sequence. -/
def lastProxy (lib : Lib) (seq : List TransportOption) : Option url.URL :=
  (seq.filterMap (fun o =>
    match o with
    | .proxy proxyURL => (lib.urlParse proxyURL).toOption
    | _ => none)).getLast?

/-- The transport settings after a sequence of transport options, in terms of the settings
before it: the proxy is that of the last `WithProxy` if there is one, the TLS configuration
has its skip flag set if there is a `WithSkipSSLVerify` (a zero configuration standing in
for a missing one), the HTTP/2 flag is set if there is a `WithHTTP2`, and nothing else
differs. -/
def settingsAfter (lib : Lib) (seq : List TransportOption) (tr : http.Transport) : http.Transport :=
  { tr with
    Proxy := (lastProxy lib seq).orElse (fun _ => tr.Proxy)
    TLSClientConfig :=
      if TransportOption.skipSSLVerify ∈ seq then
        some { tr.TLSClientConfig.getD tls.Config.zero with InsecureSkipVerify := true }
      else tr.TLSClientConfig
    ForceAttemptHTTP2 := tr.ForceAttemptHTTP2 || decide (TransportOption.http2 ∈ seq) }

/-- The transport object the transport options work on: the one the client holds, or else
the zero transport that the first of them creates at the next free address. -/
def baseTransport (env : Env) : Nat × http.Transport :=
  (transportOf env.client).getD (env.transports, http.Transport.zero)

/-- The single write to the transport that a transport option makes. -/
def TransportOption.write (lib : Lib) : TransportOption → http.Transport → http.Transport
  | .proxy proxyURL, tr =>
    match lib.urlParse proxyURL with
    | .ok u => { tr with Proxy := some u }
    | .error _ => tr
  | .skipSSLVerify, tr =>
    { tr with TLSClientConfig := some { tr.TLSClientConfig.getD tls.Config.zero with InsecureSkipVerify := true } }
  | .http2, tr => { tr with ForceAttemptHTTP2 := true }

/-- A client that already holds a transport with a proxy, a TLS configuration and other
settings, for the examples. -/
def exampleTLSClient : http.Client :=
  { http.Client.zero with
    Timeout := 7
    Transport := some (.transport 4
      { Proxy := some { text := "http://p:1", Host := "p:1" }
        TLSClientConfig := some { tls.Config.zero with ServerName := "example.org", MinVersion := 771 }
        ForceAttemptHTTP2 := true
        DisableKeepAlives := true
        MaxIdleConns := 9 }) }

/-- The state with the content of the client's transport object replaced. -/
def State.withTransport (st : State) (addr : Nat) (tr : http.Transport) : State :=
  { st with env := { st.env with client := { st.env.client with Transport := some (.transport addr tr) } } }

/-- The four extraction methods of a response. -/
inductive Extraction where
  | text
  | bytes
  | json
  | xml
  deriving DecidableEq, Repr

/-- What an extraction call hands to its caller: the bytes returned (by `Text` and `Bytes`),
the value stored in the destination (by `JSON` and `XML`), and the error. -/
structure Extracted where
  data : Bytes
  value : Option Value
  err : Option Err
  deriving DecidableEq, Repr

/-- One extraction call: the response afterwards, and what the caller gets. -/
def Response.extract (lib : Lib) (r : Response) : Extraction → Response × Extracted
  | .text => ((r.Text).1, { data := (r.Text).2.1, value := none, err := (r.Text).2.2 })
  | .bytes => ((r.Bytes).1, { data := (r.Bytes).2.1, value := none, err := (r.Bytes).2.2 })
  | .json =>
    ((r.JSON lib).1,
      match (r.JSON lib).2 with
      | .ok v => { data := [], value := some v, err := none }
      | .error e => { data := [], value := none, err := some e })
  | .xml =>
    ((r.XML lib).1,
      match (r.XML lib).2 with
      | .ok v => { data := [], value := some v, err := none }
      | .error e => { data := [], value := none, err := some e })

/-- A key that `WithHeaders` takes for the host: `host` once trimmed and put in lower case. -/
def isHostKey (key : String) : Bool :=
  ToLower (TrimSpace key) == "host"

/-- A key that `WithHeaders` takes for the transfer encoding. -/
def isTransferEncodingKey (key : String) : Bool :=
  ToLower (TrimSpace key) == "transfer-encoding"

/-- A key that `WithHeaders` sets as an ordinary header. -/
def isOrdinaryKey (key : String) : Bool :=
  !isHostKey key && !isTransferEncodingKey key

/-- One part of a multipart body: the field name, the file name (for a file part), and the
content. -/
structure Part where
  FieldName : String
  FileName : Option String
  Content : Bytes
  deriving DecidableEq, Repr

/-- The header lines of a part: the content disposition with the field name and, for a file
part, the file name, followed for a file part by the content type. -/
def Part.headerLines (p : Part) : String :=
  match p.FileName with
  | some filename =>
    "Content-Disposition: form-data; name=\"" ++ escapeQuotes p.FieldName ++ "\"; filename=\"" ++
      escapeQuotes filename ++ "\"\r\n" ++ "Content-Type: application/octet-stream\r\n"
  | none => "Content-Disposition: form-data; name=\"" ++ escapeQuotes p.FieldName ++ "\"\r\n"

/-- The parts of a multipart body on the wire: each part is the delimiter line (preceded by a
line break except for the first part), its header lines, an empty line and its content. -/
def encodeParts (boundary : String) : Bool → List Part → Bytes
  | _, [] => []
  | first, p :: ps =>
    utf8 ((if first then "--" else "\r\n--") ++ boundary ++ "\r\n" ++ p.headerLines ++ "\r\n") ++ p.Content ++
      encodeParts boundary false ps

/-- A multipart body on the wire: the parts, then the closing delimiter. -/
def encodeMultipart (boundary : String) (parts : List Part) : Bytes :=
  encodeParts boundary true parts ++ utf8 ("\r\n--" ++ boundary ++ "--\r\n")

/-- The file part a file field gives rise to: none for a field without handle and path,
otherwise the part with the field's names whose content is, for a handle, the bytes of its
file from the handle's read position on, and without a handle the content of the file at
the path. -/
def filePart (os : OS) (f : FileField) : Option Part :=
  match f.File with
  | some file => (os.handles file).map (fun opened =>
      { FieldName := f.FieldName, FileName := some f.FileName, Content := opened.rest })
  | none =>
    if f.FilePath = "" then none
    else (os.disk f.FilePath).map (fun content =>
      { FieldName := f.FieldName, FileName := some f.FileName, Content := content })

/-- The form part of a scalar field. -/
def fieldPart (kv : String × Value) : Part :=
  { FieldName := kv.1, FileName := none, Content := utf8 (Sprint kv.2) }

/-- The handles the file fields carry, in list order. -/
def handlesOf (files : Files) : List Nat :=
  files.filterMap (fun f => f.File)

/-- The writer after one more part has been written to it. -/
def multipart.Writer.addPart (w : multipart.Writer) (p : Part) : multipart.Writer :=
  { w with
    buf := w.buf ++ encodeParts w.boundary (!w.lastpart) [p]
    lastpart := true }

/-- The operating system after the given handles have been closed. -/
def closeAll (os : OS) (handles : List Nat) : OS :=
  handles.foldl closeFile os

/-- The five options of the package that set the request body; the multipart one carries the
boundary its writer draws. -/
inductive BodyOption where
  | string (body : String)
  | json (body : Value)
  | xml (body : Value)
  | form (data : Map)
  | multipart (boundary : String) (files : Files) (otherFields : Map)
  deriving DecidableEq, Repr

/-- The option of the package a body option stands for. -/
def BodyOption.toOption (lib : Lib) : BodyOption → RequestOption
  | .string body => WithStringBody body
  | .json body => WithJSONBody lib body
  | .xml body => WithXMLBody lib body
  | .form data => WithFormBody data
  | .multipart boundary files otherFields => WithMultipartFiles boundary files otherFields

/-- The file fields of the examples: one with a path, as in the upload test, but with a quote
and a line feed in its file name, one with an open handle, one with neither. -/
def exampleFiles : Files :=
  [{ FieldName := "file", FileName := "1\"1\n.txt", File := none, FilePath := "/tmp/11.txt" },
   { FieldName := "raw", FileName := "h.bin", File := some 3, FilePath := "" },
   { FieldName := "void", FileName := "none", File := none, FilePath := "" }]

/-- The first operating system is the second one with some of its handles closed. -/
def OS.closedFrom (os1 os : OS) : Prop :=
  os1.disk = os.disk ∧ ∀ h, os1.handles h = none ∨ os1.handles h = os.handles h

/-- A response whose body is an `io.NopCloser` around a reader of 600 bytes, the text `null`
followed by spaces: `Close` is a no-op on it. -/
def exampleNopCloserResponse : Response :=
  { StatusCode := 200
    Body := { unread := utf8 "null" ++ List.replicate 596 32, fault := none, closed := false,
              afterClose := .reads }
    Request := exampleRequest }

/-- The text `t` is the text `s` with the white space at its two ends taken off: `s` is `t`
between two runs of white space, and `t` neither starts nor ends with white space. -/
def IsTrimOf (t s : List Char) : Prop :=
  ∃ a b : List Char, s = a ++ t ++ b ∧ (∀ c ∈ a, isSpace c = true) ∧ (∀ c ∈ b, isSpace c = true) ∧
    (∀ c, t.head? = some c → isSpace c = false) ∧ (∀ c, t.getLast? = some c → isSpace c = false)

/-- The bytes shown as text, one character per byte, for the examples. -/
def asText (b : Bytes) : String :=
  String.mk (b.map (fun x => Char.ofNat x.toNat))

/-! # Proofs -/

/-! ## Lists and strings -/

theorem rdropWhile_append_of_pos {α : Type} (p : α → Bool) (l ws : List α) (h : ∀ a ∈ ws, p a = true) :
    (l ++ ws).rdropWhile p = l.rdropWhile p := by
  unfold List.rdropWhile
  rw [List.reverse_append, List.dropWhile_append_of_pos]
  intro a ha
  exact h a (List.mem_reverse.mp ha)

theorem rdropWhile_append_rtakeWhile {α : Type} (p : α → Bool) (l : List α) :
    l.rdropWhile p ++ l.rtakeWhile p = l := by
  unfold List.rdropWhile List.rtakeWhile
  rw [← List.reverse_append, List.takeWhile_append_dropWhile, List.reverse_reverse]

theorem trimSpaceChars_decompose (l : List Char) :
    l = l.takeWhile isSpace ++ (trimSpaceChars l ++ (l.dropWhile isSpace).rtakeWhile isSpace) := by
  unfold trimSpaceChars
  rw [rdropWhile_append_rtakeWhile, List.takeWhile_append_dropWhile]

theorem trimSpaceChars_append_left (ws l : List Char) (h : ∀ a ∈ ws, isSpace a = true) :
    trimSpaceChars (ws ++ l) = trimSpaceChars l := by
  unfold trimSpaceChars
  rw [List.dropWhile_append_of_pos h]

theorem trimSpaceChars_append_right (l ws : List Char) (h : ∀ a ∈ ws, isSpace a = true) :
    trimSpaceChars (l ++ ws) = trimSpaceChars l := by
  unfold trimSpaceChars
  rw [List.dropWhile_append]
  split
  · rename_i hnil
    have hw : List.dropWhile isSpace ws = [] := List.dropWhile_eq_nil_iff.mpr (by simpa using h)
    rw [hw, List.isEmpty_iff.mp hnil]
  · exact rdropWhile_append_of_pos _ _ _ h

theorem indexChars_eq_none (c : Char) (l : List Char) (h : c ∉ l) : indexChars c l = none := by
  induction l with
  | nil => rfl
  | cons x xs ih =>
    simp only [List.mem_cons, not_or] at h
    simp [indexChars, Ne.symm h.1, ih h.2]

theorem indexChars_eq_some (c : Char) (l : List Char) (h : c ∈ l) :
    indexChars c l = some (l.takeWhile (· != c)).length := by
  induction l with
  | nil => simp at h
  | cons x xs ih =>
    by_cases hx : x = c
    · simp [indexChars, hx]
    · have hmem : c ∈ xs := by
        rcases List.mem_cons.mp h with h1 | h1
        · exact absurd h1.symm hx
        · exact h1
      simp [indexChars, hx, ih hmem, List.takeWhile_cons]

theorem take_length_takeWhile {α : Type} (p : α → Bool) (l : List α) :
    l.take (l.takeWhile p).length = l.takeWhile p := by
  induction l with
  | nil => rfl
  | cons x xs ih =>
    by_cases hx : p x
    · simp [List.takeWhile_cons, hx, ih]
    · simp [List.takeWhile_cons, hx]

theorem drop_length_takeWhile {α : Type} (p : α → Bool) (l : List α) :
    l.drop (l.takeWhile p).length = l.dropWhile p := by
  induction l with
  | nil => rfl
  | cons x xs ih =>
    by_cases hx : p x
    · simp [List.takeWhile_cons, List.dropWhile_cons, hx, ih]
    · simp [List.takeWhile_cons, List.dropWhile_cons, hx]

theorem takeWhile_ne_append (c : Char) (t b : List Char) (h : c ∈ t) :
    (t ++ b).takeWhile (· != c) = t.takeWhile (· != c) := by
  induction t with
  | nil => simp at h
  | cons x xs ih =>
    by_cases hx : x = c
    · simp [List.takeWhile_cons, hx]
    · have hmem : c ∈ xs := by
        rcases List.mem_cons.mp h with h1 | h1
        · exact absurd h1.symm hx
        · exact h1
      simp [List.takeWhile_cons, hx, ih hmem]

theorem dropWhile_ne_append (c : Char) (t b : List Char) (h : c ∈ t) :
    (t ++ b).dropWhile (· != c) = t.dropWhile (· != c) ++ b := by
  induction t with
  | nil => simp at h
  | cons x xs ih =>
    by_cases hx : x = c
    · simp [List.dropWhile_cons, hx]
    · have hmem : c ∈ xs := by
        rcases List.mem_cons.mp h with h1 | h1
        · exact absurd h1.symm hx
        · exact h1
      simp [List.dropWhile_cons, hx, ih hmem]

theorem dropWhile_ne_of_mem (c : Char) (t : List Char) (h : c ∈ t) :
    ∃ rest, t.dropWhile (· != c) = c :: rest := by
  induction t with
  | nil => simp at h
  | cons x xs ih =>
    by_cases hx : x = c
    · exact ⟨xs, by simp [List.dropWhile_cons, hx]⟩
    · have hmem : c ∈ xs := by
        rcases List.mem_cons.mp h with h1 | h1
        · exact absurd h1.symm hx
        · exact h1
      obtain ⟨rest, hr⟩ := ih hmem
      exact ⟨rest, by simp [List.dropWhile_cons, hx, hr]⟩

theorem mem_takeWhile_imp {α : Type} (p : α → Bool) (l : List α) (a : α) (h : a ∈ l.takeWhile p) :
    p a = true := by
  induction l with
  | nil => simp at h
  | cons x xs ih =>
    by_cases hx : p x
    · simp only [List.takeWhile_cons, hx, if_true, List.mem_cons] at h
      rcases h with h1 | h1
      · rw [h1]; exact hx
      · exact ih h1
    · simp [List.takeWhile_cons, hx] at h

theorem cookieOfPart_eq (part : List Char) : cookieOfPart part = (cookieOfSegment part).toList := by
  have hdec := trimSpaceChars_decompose part
  have ha : ∀ x ∈ part.takeWhile isSpace, isSpace x = true := fun x hx => mem_takeWhile_imp _ _ _ hx
  have hb : ∀ x ∈ (part.dropWhile isSpace).rtakeWhile isSpace, isSpace x = true :=
    fun x hx => List.mem_rtakeWhile_imp hx
  generalize part.takeWhile isSpace = a at hdec ha
  generalize (part.dropWhile isSpace).rtakeWhile isSpace = b at hdec hb
  have heq : isSpace '=' = false := by decide
  by_cases h : '=' ∈ part
  · have ht : '=' ∈ trimSpaceChars part := by
      rw [hdec] at h
      simp only [List.mem_append] at h
      rcases h with h | h | h
      · have := ha _ h; rw [heq] at this; cases this
      · exact h
      · have := hb _ h; rw [heq] at this; cases this
    have hane : ∀ x ∈ a, (x != '=') = true := by
      intro x hx
      have := ha x hx
      by_cases hxe : x = '='
      · rw [hxe, heq] at this; cases this
      · simpa using hxe
    obtain ⟨rest, hrest⟩ := dropWhile_ne_of_mem '=' _ ht
    have hne : trimSpaceChars part ≠ [] := List.ne_nil_of_mem ht
    have hname : part.takeWhile (· != '=') = a ++ (trimSpaceChars part).takeWhile (· != '=') := by
      conv_lhs => rw [hdec]
      rw [List.takeWhile_append_of_pos hane, takeWhile_ne_append _ _ _ ht]
    have hvalue : (part.dropWhile (· != '=')).drop 1 = rest ++ b := by
      conv_lhs => rw [hdec]
      rw [List.dropWhile_append_of_pos hane, dropWhile_ne_append _ _ _ ht, hrest]
      rfl
    have hdrop : (trimSpaceChars part).drop (((trimSpaceChars part).takeWhile (· != '=')).length + 1) = rest := by
      rw [← List.drop_drop, drop_length_takeWhile, hrest]
      rfl
    unfold cookieOfPart cookieOfSegment
    simp only [h, if_true, hne, if_false, indexChars_eq_some _ _ ht, Option.toList]
    rw [hname, hvalue, trimSpaceChars_append_left _ _ ha, trimSpaceChars_append_right _ _ hb,
      take_length_takeWhile, hdrop]
    split
    · rfl
    · rename_i hlt
      have hlen : (trimSpaceChars part).length =
          ((trimSpaceChars part).takeWhile (· != '=')).length + (1 + rest.length) := by
        conv_lhs => rw [← List.takeWhile_append_dropWhile (· != '=') (trimSpaceChars part), hrest]
        simp [Nat.add_comm]
      have hr : rest = [] := by
        cases rest with
        | nil => rfl
        | cons y ys => simp only [List.length_cons] at hlen; omega
      rw [hr]
      rfl
  · have ht : '=' ∉ trimSpaceChars part := by
      intro hmem
      apply h
      rw [hdec]
      simp [hmem]
    unfold cookieOfPart cookieOfSegment
    simp only [h, if_false, indexChars_eq_none _ _ ht, Option.toList]
    split <;> rfl

theorem splitChars_of_not_mem (sep : Char) (a : List Char) (h : sep ∉ a) : splitChars sep a = [a] := by
  induction a with
  | nil => rfl
  | cons x xs ih =>
    simp only [List.mem_cons, not_or] at h
    simp [splitChars, Ne.symm h.1, ih h.2]

theorem splitChars_append (sep : Char) (a b : List Char) (h : sep ∉ a) :
    splitChars sep (a ++ sep :: b) = a :: splitChars sep b := by
  induction a with
  | nil => simp [splitChars]
  | cons x xs ih =>
    simp only [List.mem_cons, not_or] at h
    simp [splitChars, Ne.symm h.1, ih h.2]

theorem intercalate_cons_cons {α : Type} (sep x y : List α) (ys : List (List α)) :
    sep.intercalate (x :: y :: ys) = x ++ sep ++ sep.intercalate (y :: ys) := by
  simp [List.intercalate, List.intersperse]

theorem splitChars_intercalate (sep : Char) (seg : List Char) (segs : List (List Char))
    (h : ∀ s ∈ seg :: segs, sep ∉ s) :
    splitChars sep ([sep].intercalate (seg :: segs)) = seg :: segs := by
  induction segs generalizing seg with
  | nil =>
    have : [sep].intercalate [seg] = seg := by simp [List.intercalate, List.intersperse]
    rw [this]
    exact splitChars_of_not_mem sep seg (h seg (List.mem_cons_self _ _))
  | cons y ys ih =>
    rw [intercalate_cons_cons, List.append_assoc, List.singleton_append,
      splitChars_append sep seg _ (h seg (List.mem_cons_self _ _)),
      ih y (fun s hs => h s (List.mem_cons_of_mem _ hs))]

theorem foldl_append_eq_flatMap {α β : Type} (f : α → List β) (l : List α) (init : List β) :
    l.foldl (fun acc x => acc ++ f x) init = init ++ l.flatMap f := by
  induction l generalizing init with
  | nil => simp
  | cons x xs ih => simp [ih, List.flatMap_cons]

theorem flatMap_toList_eq_filterMap {α β : Type} (f : α → Option β) (l : List α) :
    l.flatMap (fun x => (f x).toList) = l.filterMap f := by
  induction l with
  | nil => rfl
  | cons x xs ih =>
    rw [List.flatMap_cons, List.filterMap_cons, ih]
    cases f x <;> rfl

theorem parseCookieHeader_eq_filterMap (cookieHeader : String) :
    parseCookieHeader cookieHeader = (splitChars ';' cookieHeader.toList).filterMap cookieOfSegment := by
  unfold parseCookieHeader
  split
  · rename_i h
    rw [h]
    rfl
  · rw [foldl_append_eq_flatMap, List.nil_append]
    have : cookieOfPart = fun part => (cookieOfSegment part).toList :=
      funext cookieOfPart_eq
    rw [this, flatMap_toList_eq_filterMap]

theorem parseCookieHeader_of_segments (cookieHeader : String) (segments : List (List Char))
    (hjoin : cookieHeader.toList = [';'].intercalate segments) (hfree : ∀ s ∈ segments, ';' ∉ s) :
    parseCookieHeader cookieHeader = segments.filterMap cookieOfSegment := by
  rw [parseCookieHeader_eq_filterMap, hjoin]
  cases segments with
  | nil => rfl
  | cons seg segs => rw [splitChars_intercalate _ _ _ hfree]

theorem trimSpaceChars_eq_self (l : List Char)
    (hhead : l.head?.all (fun c => !isSpace c) = true) (hlast : l.getLast?.all (fun c => !isSpace c) = true) :
    trimSpaceChars l = l := by
  unfold trimSpaceChars
  have h1 : l.dropWhile isSpace = l := by
    cases l with
    | nil => rfl
    | cons x xs =>
      have hx : isSpace x = false := by simpa using hhead
      simp [List.dropWhile_cons, hx]
  rw [h1, List.rdropWhile_eq_self_iff]
  intro hl
  rw [List.getLast?_eq_getLast _ hl] at hlast
  simpa using hlast

theorem takeWhile_ne_of_not_mem (c : Char) (a b : List Char) (h : c ∉ a) :
    (a ++ c :: b).takeWhile (· != c) = a := by
  induction a with
  | nil => simp [List.takeWhile_cons]
  | cons x xs ih =>
    simp only [List.mem_cons, not_or] at h
    simp [List.takeWhile_cons, Ne.symm h.1, ih h.2]

theorem dropWhile_ne_of_not_mem (c : Char) (a b : List Char) (h : c ∉ a) :
    (a ++ c :: b).dropWhile (· != c) = c :: b := by
  induction a with
  | nil => simp [List.dropWhile_cons]
  | cons x xs ih =>
    simp only [List.mem_cons, not_or] at h
    simp [List.dropWhile_cons, Ne.symm h.1, ih h.2]

theorem toList_intercalate_go (acc s : String) (l : List String) :
    (String.intercalate.go acc s l).toList = acc.toList ++ l.flatMap (fun x => s.toList ++ x.toList) := by
  induction l generalizing acc with
  | nil => simp [String.intercalate.go]
  | cons x xs ih =>
    rw [String.intercalate.go, ih]
    simp [List.flatMap_cons, String.data_append]

theorem intercalate_singleton_cons {α : Type} (sep : α) (x : List α) (xs : List (List α)) :
    [sep].intercalate (x :: xs) = x ++ xs.flatMap (fun y => sep :: y) := by
  induction xs generalizing x with
  | nil => simp [List.intercalate, List.intersperse]
  | cons y ys ih => rw [intercalate_cons_cons, ih y]; simp [List.flatMap_cons]

theorem cookieOfSegment_pair (ws name value : List Char) (hws : ∀ a ∈ ws, isSpace a = true)
    (hname : '=' ∉ name)
    (hn1 : name.head?.all (fun c => !isSpace c) = true) (hn2 : name.getLast?.all (fun c => !isSpace c) = true)
    (hv1 : value.head?.all (fun c => !isSpace c) = true) (hv2 : value.getLast?.all (fun c => !isSpace c) = true) :
    cookieOfSegment (ws ++ (name ++ '=' :: value)) = some { Name := String.mk name, Value := String.mk value } := by
  have hmem : '=' ∉ ws ++ name := by
    intro h
    rcases List.mem_append.mp h with h | h
    · have := hws _ h
      have heq : isSpace '=' = false := by decide
      rw [heq] at this; cases this
    · exact hname h
  unfold cookieOfSegment
  rw [← List.append_assoc, takeWhile_ne_of_not_mem _ _ _ hmem, dropWhile_ne_of_not_mem _ _ _ hmem,
    trimSpaceChars_append_left _ _ hws, trimSpaceChars_eq_self _ hn1 hn2]
  simp [trimSpaceChars_eq_self _ hv1 hv2]

theorem cookieOfSegment_cleanPair (ws : List Char) (hws : ∀ a ∈ ws, isSpace a = true)
    (p : String × String) (hp : cleanPair p) :
    cookieOfSegment (ws ++ pairChars p) = some { Name := p.1, Value := p.2 } := by
  obtain ⟨_, _, heq, _, hn, hv⟩ := hp
  unfold edgeSpaceFree at hn hv
  simp only [Bool.and_eq_true] at hn hv
  exact cookieOfSegment_pair ws p.1.toList p.2.toList hws heq hn.1 hn.2 hv.1 hv.2

theorem toList_cookieHeaderOf (p : String × String) (ps : List (String × String)) :
    (cookieHeaderOf (p :: ps)).toList = [';'].intercalate (pairChars p :: ps.map (fun q => ' ' :: pairChars q)) := by
  unfold cookieHeaderOf
  rw [List.map_cons, String.intercalate, toList_intercalate_go, intercalate_singleton_cons]
  simp [List.flatMap_map, pairChars, String.data_append]

theorem filterMap_cookieOfSegment (ws : List Char) (hws : ∀ a ∈ ws, isSpace a = true)
    (ps : List (String × String)) (hps : ∀ q ∈ ps, cleanPair q) :
    (ps.map (fun q => ws ++ pairChars q)).filterMap cookieOfSegment =
      ps.map (fun p => { Name := p.1, Value := p.2 }) := by
  induction ps with
  | nil => rfl
  | cons q qs ih =>
    rw [List.map_cons, List.filterMap_cons,
      cookieOfSegment_cleanPair ws hws q (hps q (List.mem_cons_self _ _)), List.map_cons,
      ih (fun x hx => hps x (List.mem_cons_of_mem _ hx))]

theorem semicolon_not_mem_pairChars (q : String × String) (hq : cleanPair q) : ';' ∉ pairChars q := by
  obtain ⟨_, h1, _, h2, _, _⟩ := hq
  intro hmem
  rcases List.mem_append.mp hmem with h | h
  · exact h1 h
  · rcases List.mem_cons.mp h with h | h
    · exact absurd h (by decide)
    · exact h2 h

theorem parseCookieHeader_cookieHeaderOf (pairs : List (String × String)) (hpairs : ∀ p ∈ pairs, cleanPair p) :
    parseCookieHeader (cookieHeaderOf pairs) = pairs.map (fun p => { Name := p.1, Value := p.2 }) := by
  cases pairs with
  | nil => rfl
  | cons p ps =>
    have hrest : ∀ q ∈ ps, cleanPair q := fun q hq => hpairs q (List.mem_cons_of_mem _ hq)
    have hfree : ∀ s ∈ pairChars p :: ps.map (fun q => ' ' :: pairChars q), ';' ∉ s := by
      intro s hs
      rcases List.mem_cons.mp hs with h | h
      · rw [h]; exact semicolon_not_mem_pairChars p (hpairs p (List.mem_cons_self _ _))
      · obtain ⟨q, hq, rfl⟩ := List.mem_map.mp h
        intro hmem
        rcases List.mem_cons.mp hmem with h | h
        · exact absurd h (by decide)
        · exact semicolon_not_mem_pairChars q (hrest q hq) h
    have h0 := cookieOfSegment_cleanPair [] (by simp) p (hpairs p (List.mem_cons_self _ _))
    rw [List.nil_append] at h0
    have h1 := filterMap_cookieOfSegment [' '] (by decide) ps hrest
    rw [parseCookieHeader_of_segments _ _ (toList_cookieHeaderOf p ps) hfree, List.filterMap_cons, h0,
      List.map_cons]
    exact congrArg _ h1

/-- Claim C1: for every list of (name, value) pairs in which each name is non-empty and holds
no `;` and no `=`, each value holds no `;`, and neither has white space at its ends,
`RequestCookies` on a response whose request carries the `Cookie` header made of the pairs
written `name=value` and joined by `"; "` returns exactly one cookie per pair, with that
name and value, in the same order. -/
theorem RequestCookies_roundtrip (r : Response) (pairs : List (String × String))
    (hpairs : ∀ p ∈ pairs, cleanPair p)
    (hheader : r.Request.Header.Get "Cookie" = cookieHeaderOf pairs) :
    r.RequestCookies = pairs.map (fun p => { Name := p.1, Value := p.2 }) := by
  unfold Response.RequestCookies
  rw [hheader]
  exact parseCookieHeader_cookieHeaderOf pairs hpairs

/-- The header `a=1; b=2` gives the cookies `a=1` and `b=2`, in that order. -/
theorem RequestCookies_roundtrip_witness :
    (∀ p ∈ [("a", "1"), ("b", "2")], cleanPair p) ∧
    (exampleResponse "a=1; b=2" []).Request.Header.Get "Cookie" = cookieHeaderOf [("a", "1"), ("b", "2")] ∧
    (exampleResponse "a=1; b=2" []).RequestCookies = [{ Name := "a", Value := "1" }, { Name := "b", Value := "2" }] :=
  ⟨by decide, by decide,
    RequestCookies_roundtrip (exampleResponse "a=1; b=2" []) [("a", "1"), ("b", "2")] (by decide) (by decide)⟩

theorem applyOptions_append_of_succeed (pre rest : List RequestOption) (st : State)
    (hpre : ∀ (k : Nat) (hk : k < pre.length), (pre[k] (stateAfter (pre.take k) st)).2 = none) :
    applyOptions (pre ++ rest) st = applyOptions rest (stateAfter pre st) := by
  induction pre generalizing st with
  | nil => rfl
  | cons o os ih =>
    have h0 := hpre 0 (Nat.succ_pos _)
    simp only [List.getElem_cons_zero, List.take_zero, stateAfter, List.foldl_nil] at h0
    have hrest : ∀ (k : Nat) (hk : k < os.length), (os[k] (stateAfter (os.take k) (o st).1)).2 = none := by
      intro k hk
      have := hpre (k + 1) (Nat.succ_lt_succ hk)
      simpa [stateAfter] using this
    rw [List.cons_append, applyOptions]
    have hsplit : o st = ((o st).1, none) := by rw [← h0]
    rw [hsplit]
    simp only
    rw [ih (o st).1 hrest]
    rfl

theorem applyOptions_of_mem_failing (options : List RequestOption) (o : RequestOption)
    (hmem : o ∈ options) (hfail : ∀ st, (o st).2 ≠ none) (st : State) :
    (applyOptions options st).2 ≠ none := by
  induction options generalizing st with
  | nil => simp at hmem
  | cons x xs ih =>
    rw [applyOptions]
    rcases hx : x st with ⟨st1, err⟩
    cases err with
    | some e => simp
    | none =>
      simp only
      rcases List.mem_cons.mp hmem with h | h
      · have := hfail st
        rw [h, hx] at this
        exact absurd rfl this
      · exact ih h st1

/-- Claim C3: when the request can be built, `Request` applies the options from left to right
to one and the same state, each on the state its predecessors left.  If the options `pre`
all succeed, a call with exactly these options hands the request and the client they left to
`client.Do`; and if the option that follows them fails with `e`, `Request` returns `e`
and no response, makes no call of `client.Do`, leaves the environment as the options up to
and including the failing one left it, and the options `post` behind it play no part. -/
theorem Request_applies_options_in_order (lib : Lib) (method url : String) (req0 : http.Request) (env : Env)
    (pre post : List RequestOption) (o : RequestOption)
    (hnew : NewRequest lib method url = .ok req0)
    (hpre : ∀ (k : Nat) (hk : k < pre.length),
      (pre[k] (stateAfter (pre.take k) { req := req0, env := env })).2 = none) :
    (Request lib method url pre env).sent =
        some ((stateAfter pre { req := req0, env := env }).req,
              (stateAfter pre { req := req0, env := env }).env.client) ∧
      (Request lib method url pre env).env = (stateAfter pre { req := req0, env := env }).env ∧
      ∀ (e : Err) (stf : State), o (stateAfter pre { req := req0, env := env }) = (stf, some e) →
        Request lib method url (pre ++ o :: post) env = { result := .error e, env := stf.env, sent := none } := by
  have h1 := applyOptions_append_of_succeed pre [] { req := req0, env := env } hpre
  rw [List.append_nil] at h1
  refine ⟨?_, ?_, ?_⟩
  · unfold Request
    rw [hnew]
    simp only [h1, applyOptions]
    split <;> rfl
  · unfold Request
    rw [hnew]
    simp only [h1, applyOptions]
    split <;> rfl
  · intro e stf hfail
    unfold Request
    rw [hnew]
    simp only [applyOptions_append_of_succeed pre (o :: post) _ hpre, applyOptions, hfail]

/-- The options `WithTimeout`, a `WithProxy` with a URL that does not parse, `WithHTTP2`: the
call returns the parse error, the timeout stays set, no transport is created. -/
theorem Request_applies_options_in_order_witness :
    NewRequest exampleLib "GET" "http://localhost:8080/" =
        .ok { exampleRequest with URL := { text := "http://localhost:8080/", Host := "http://localhost:8080/" }
                                  Host := "http://localhost:8080/" } ∧
      (∀ (k : Nat) (hk : k < [WithTimeout 5].length),
        ([WithTimeout 5][k] (stateAfter ([WithTimeout 5].take k)
          { req := { exampleRequest with URL := { text := "http://localhost:8080/", Host := "http://localhost:8080/" }
                                         Host := "http://localhost:8080/" }
            env := exampleEnv })).2 = none) ∧
      Request exampleLib "GET" "http://localhost:8080/"
          ([WithTimeout 5] ++ WithProxy exampleLib ":bad" :: [WithHTTP2]) exampleEnv =
        { result := .error "parse: missing protocol scheme"
          env := { exampleEnv with client := { http.Client.zero with Timeout := 5 } }
          sent := none } :=
  ⟨rfl, by decide,
    (Request_applies_options_in_order exampleLib "GET" "http://localhost:8080/" _ exampleEnv
      [WithTimeout 5] [WithHTTP2] (WithProxy exampleLib ":bad") rfl (by decide)).2.2
      "parse: missing protocol scheme" _ rfl⟩

/-- Claim C7: for every method, URL and option list that contains `WithProxy(s)` with a proxy
URL `s` that does not parse, `Request` returns an error and no response and makes no call of
`client.Do`; and the failing `WithProxy` returns the parse error and leaves the state, and
with it the transport and its proxy, as it found it. -/
theorem Request_invalid_proxy (lib : Lib) (method url : String) (options : List RequestOption) (env : Env)
    (s : String) (e : Err) (hparse : lib.urlParse s = .error e) (hmem : WithProxy lib s ∈ options) :
    (∃ err, (Request lib method url options env).result = .error err) ∧
      (Request lib method url options env).sent = none ∧
      ∀ st : State, WithProxy lib s st = (st, some e) := by
  have hfail : ∀ st : State, WithProxy lib s st = (st, some e) := by
    intro st
    unfold WithProxy
    rw [hparse]
  refine ⟨?_, ?_, hfail⟩
  all_goals
    unfold Request
    cases hnew : NewRequest lib method url with
    | error err => simp
    | ok req =>
      have hne := applyOptions_of_mem_failing options (WithProxy lib s) hmem
        (fun st => by rw [hfail st]; simp) { req := req, env := env }
      rcases hres : applyOptions options { req := req, env := env } with ⟨st1, err⟩
      rw [hres] at hne
      cases err with
      | none => exact absurd rfl hne
      | some e1 => simp [hres]

/-- A `GET` with a timeout and a proxy URL that does not parse fails before `client.Do`. -/
theorem Request_invalid_proxy_witness :
    exampleLib.urlParse ":bad" = .error "parse: missing protocol scheme" ∧
      WithProxy exampleLib ":bad" ∈ [WithTimeout 5, WithProxy exampleLib ":bad"] ∧
      ((∃ err, (Request exampleLib "GET" "http://localhost:8080/"
          [WithTimeout 5, WithProxy exampleLib ":bad"] exampleEnv).result = .error err) ∧
        (Request exampleLib "GET" "http://localhost:8080/"
          [WithTimeout 5, WithProxy exampleLib ":bad"] exampleEnv).sent = none ∧
        ∀ st : State, WithProxy exampleLib ":bad" st = (st, some "parse: missing protocol scheme")) :=
  ⟨rfl, List.mem_cons_of_mem _ (List.mem_singleton.mpr rfl),
    Request_invalid_proxy exampleLib "GET" "http://localhost:8080/" _ exampleEnv ":bad" _ rfl
      (List.mem_cons_of_mem _ (List.mem_singleton.mpr rfl))⟩

theorem ensureTransport_of_transport (env : Env) (addr : Nat) (tr : http.Transport)
    (h : env.client.Transport = some (.transport addr tr)) : ensureTransport env = env := by
  unfold ensureTransport
  simp [h]

theorem ensureTransport_eq (env : Env) :
    ensureTransport env =
      { env with
        client := { env.client with
          Transport := some (.transport (baseTransport env).1 (baseTransport env).2) }
        transports := env.transports + (if (transportOf env.client).isSome then 0 else 1) } := by
  unfold ensureTransport baseTransport transportOf
  rcases env with ⟨⟨t, cr, jar, tm⟩, os, n⟩
  cases t with
  | none => simp
  | some rt =>
    cases rt with
    | transport a tr => simp
    | other name => simp

/-- Claim C10: on a client whose transport is a `*http.Transport` carrying a TLS configuration,
`WithSkipSSLVerify` succeeds and the state afterwards is the state before with the skip flag
of that configuration set and nothing else changed (the other TLS fields, the other
transport settings, the other client settings, the request); on a client without a TLS
configuration it succeeds and installs the zero configuration with the skip flag set. -/
theorem WithSkipSSLVerify_frame (st : State) :
    (∀ (addr : Nat) (tr : http.Transport) (config : tls.Config),
      st.env.client.Transport = some (.transport addr tr) → tr.TLSClientConfig = some config →
      WithSkipSSLVerify st =
        ({ st with env := { st.env with client := { st.env.client with
            Transport := some (.transport addr
              { tr with TLSClientConfig := some { config with InsecureSkipVerify := true } }) } } }, none)) ∧
    (tlsConfigOf st.env.client = none →
      (WithSkipSSLVerify st).2 = none ∧
      tlsConfigOf (WithSkipSSLVerify st).1.env.client = some { tls.Config.zero with InsecureSkipVerify := true }) := by
  constructor
  · intro addr tr config htr hcfg
    unfold WithSkipSSLVerify
    simp only [ensureTransport_of_transport _ addr tr htr, writeTransport, htr, hcfg]
  · intro hnone
    refine ⟨rfl, ?_⟩
    unfold WithSkipSSLVerify
    simp only [ensureTransport_eq]
    unfold tlsConfigOf at hnone ⊢
    unfold baseTransport
    cases htr : transportOf st.env.client with
    | none => simp [writeTransport, transportOf, http.Transport.zero]
    | some p =>
      rw [htr] at hnone
      simp only at hnone
      simp [writeTransport, transportOf, hnone]

/-- A client with a TLS configuration keeps its server name, minimum version, proxy and
timeout; the default client gets a fresh configuration. -/
theorem WithSkipSSLVerify_frame_witness :
    (WithSkipSSLVerify { req := exampleRequest, env := { exampleEnv with client := exampleTLSClient } }).1.env.client =
        { exampleTLSClient with
          Transport := some (.transport 4
            { Proxy := some { text := "http://p:1", Host := "p:1" }
              TLSClientConfig := some { tls.Config.zero with
                ServerName := "example.org", MinVersion := 771, InsecureSkipVerify := true }
              ForceAttemptHTTP2 := true
              DisableKeepAlives := true
              MaxIdleConns := 9 }) } ∧
      tlsConfigOf exampleEnv.client = none ∧
      tlsConfigOf (WithSkipSSLVerify { req := exampleRequest, env := exampleEnv }).1.env.client =
        some { tls.Config.zero with InsecureSkipVerify := true } :=
  ⟨congrArg (fun r => r.1.env.client)
      ((WithSkipSSLVerify_frame { req := exampleRequest, env := { exampleEnv with client := exampleTLSClient } }).1
        4 _ _ rfl rfl),
    rfl,
    ((WithSkipSSLVerify_frame { req := exampleRequest, env := exampleEnv }).2 rfl).2⟩

theorem toOption_of_transport (lib : Lib) (o : TransportOption) (st : State) (addr : Nat) (tr : http.Transport)
    (h : st.env.client.Transport = some (.transport addr tr))
    (hparse : ∀ s, o = .proxy s → ∃ u, lib.urlParse s = .ok u) :
    o.toOption lib st = (st.withTransport addr (o.write lib tr), none) := by
  cases o with
  | proxy s =>
    obtain ⟨u, hu⟩ := hparse s rfl
    simp only [TransportOption.toOption, WithProxy, hu, ensureTransport_of_transport _ addr tr h,
      writeTransport, h, TransportOption.write, State.withTransport]
  | skipSSLVerify =>
    simp only [TransportOption.toOption, WithSkipSSLVerify, ensureTransport_of_transport _ addr tr h,
      writeTransport, h, TransportOption.write, State.withTransport]
    cases tr.TLSClientConfig <;> rfl
  | http2 =>
    simp only [TransportOption.toOption, WithHTTP2, ensureTransport_of_transport _ addr tr h,
      writeTransport, h, TransportOption.write, State.withTransport]

theorem applyOptions_of_transport (lib : Lib) (seq : List TransportOption) (st : State) (addr : Nat)
    (tr : http.Transport) (h : st.env.client.Transport = some (.transport addr tr))
    (hparse : ∀ s, .proxy s ∈ seq → ∃ u, lib.urlParse s = .ok u) :
    applyOptions (seq.map (fun o => o.toOption lib)) st =
      (st.withTransport addr (seq.foldl (fun tr o => o.write lib tr) tr), none) := by
  induction seq generalizing st tr with
  | nil =>
    simp only [List.map_nil, applyOptions, List.foldl_nil, State.withTransport, ← h]
  | cons o os ih =>
    have h1 := toOption_of_transport lib o st addr tr h
      (fun s hs => hparse s (by rw [hs]; exact List.mem_cons_self _ _))
    rw [List.map_cons, applyOptions, h1]
    simp only
    rw [ih (st.withTransport addr (o.write lib tr)) (o.write lib tr) rfl
      (fun s hs => hparse s (List.mem_cons_of_mem _ hs))]
    rfl

theorem lastProxy_append_proxy (lib : Lib) (seq : List TransportOption) (s : String) (u : url.URL)
    (hu : lib.urlParse s = .ok u) : lastProxy lib (seq ++ [.proxy s]) = some u := by
  simp [lastProxy, List.filterMap_append, hu, Except.toOption]

theorem lastProxy_append_other (lib : Lib) (seq : List TransportOption) (o : TransportOption)
    (ho : ∀ s, o ≠ .proxy s) : lastProxy lib (seq ++ [o]) = lastProxy lib seq := by
  cases o with
  | proxy s => exact absurd rfl (ho s)
  | skipSSLVerify => simp [lastProxy, List.filterMap_append]
  | http2 => simp [lastProxy, List.filterMap_append]

theorem foldl_write_eq_settingsAfter (lib : Lib) (seq : List TransportOption) (tr : http.Transport)
    (hparse : ∀ s, .proxy s ∈ seq → ∃ u, lib.urlParse s = .ok u) :
    seq.foldl (fun tr o => o.write lib tr) tr = settingsAfter lib seq tr := by
  induction seq using List.reverseRecOn with
  | nil =>
    simp [settingsAfter, lastProxy]
  | append_singleton os o ih =>
    rw [List.foldl_append, List.foldl_cons, List.foldl_nil,
      ih (fun s hs => hparse s (List.mem_append_left _ hs))]
    cases o with
    | proxy s =>
      obtain ⟨u, hu⟩ := hparse s (List.mem_append_right _ (List.mem_singleton.mpr rfl))
      simp [TransportOption.write, hu, settingsAfter, lastProxy_append_proxy lib os s u hu]
    | skipSSLVerify =>
      rw [settingsAfter, settingsAfter, lastProxy_append_other lib os _ (fun s => by simp)]
      by_cases hmem : TransportOption.skipSSLVerify ∈ os <;>
        simp [TransportOption.write, hmem]
    | http2 =>
      rw [settingsAfter, settingsAfter, lastProxy_append_other lib os _ (fun s => by simp)]
      simp [TransportOption.write]

theorem toOption_ensureTransport (lib : Lib) (o : TransportOption) (st : State)
    (hparse : ∀ s, o = .proxy s → ∃ u, lib.urlParse s = .ok u) :
    o.toOption lib st = o.toOption lib { st with env := ensureTransport st.env } := by
  have hidem : ensureTransport (ensureTransport st.env) = ensureTransport st.env := by
    rw [ensureTransport_eq st.env]
    exact ensureTransport_of_transport _ _ _ rfl
  cases o with
  | proxy s =>
    obtain ⟨u, hu⟩ := hparse s rfl
    simp only [TransportOption.toOption, WithProxy, hu, hidem]
  | skipSSLVerify => simp only [TransportOption.toOption, WithSkipSSLVerify, hidem]
  | http2 => simp only [TransportOption.toOption, WithHTTP2, hidem]

/-- Claim C6, as amended: a non-empty sequence of the transport options `WithProxy` (with URLs
that parse), `WithSkipSSLVerify` and `WithHTTP2` succeeds, and all its options write to one
transport object: the `*http.Transport` the client held before, or else a zero transport
created once, by the first option, at the next free address (so the count of transports
created grows by at most one).  Its settings afterwards are the settings of that object
before the sequence, except that the proxy is that of the last `WithProxy` in the sequence,
the skip flag of the TLS configuration is set if the sequence holds a `WithSkipSSLVerify`,
and the HTTP/2 flag is set if it holds a `WithHTTP2`.  Nothing else in the state changes. -/
theorem transport_options_share_transport (lib : Lib) (o : TransportOption) (rest : List TransportOption)
    (st : State) (hparse : ∀ s, .proxy s ∈ o :: rest → ∃ u, lib.urlParse s = .ok u) :
    applyOptions ((o :: rest).map (fun o => o.toOption lib)) st =
      ({ st with env := { st.env with
          client := { st.env.client with
            Transport := some (.transport (baseTransport st.env).1
              (settingsAfter lib (o :: rest) (baseTransport st.env).2)) }
          transports := st.env.transports + (if (transportOf st.env.client).isSome then 0 else 1) } },
        none) := by
  have h0 : applyOptions ((o :: rest).map (fun o => o.toOption lib)) st =
      applyOptions ((o :: rest).map (fun o => o.toOption lib)) { st with env := ensureTransport st.env } := by
    rw [List.map_cons, applyOptions, applyOptions,
      toOption_ensureTransport lib o st (fun s hs => hparse s (by rw [hs]; exact List.mem_cons_self _ _))]
  rw [h0, ← foldl_write_eq_settingsAfter lib (o :: rest) _ hparse]
  have h1 := applyOptions_of_transport lib (o :: rest) { st with env := ensureTransport st.env }
    (baseTransport st.env).1 (baseTransport st.env).2 (by rw [ensureTransport_eq]) hparse
  rw [h1, State.withTransport, ensureTransport_eq]

/-- The setting made by `WithProxy("http://a:1")` is in force on the default client after it,
and no longer after a following `WithProxy("http://b:2")`, which overwrites it. -/
theorem transport_setting_overwritten :
    TransportOption.holds exampleLib (.proxy "http://a:1")
        (applyOptions ([TransportOption.proxy "http://a:1"].map (fun o => o.toOption exampleLib))
          { req := exampleRequest, env := exampleEnv }).1.env.client = true ∧
      TransportOption.holds exampleLib (.proxy "http://a:1")
        (applyOptions ([TransportOption.proxy "http://a:1", TransportOption.proxy "http://b:2"].map
            (fun o => o.toOption exampleLib))
          { req := exampleRequest, env := exampleEnv }).1.env.client = false ∧
      transportOf (applyOptions ([TransportOption.proxy "http://a:1", TransportOption.proxy "http://b:2"].map
            (fun o => o.toOption exampleLib))
          { req := exampleRequest, env := exampleEnv }).1.env.client =
        some (0, { http.Transport.zero with Proxy := some { text := "http://b:2", Host := "http://b:2" } }) := by
  decide

/-- On a client that holds a transport at address 4, the three options keep that object and
its other settings; on the default client they create one transport, at address 0. -/
theorem transport_options_share_transport_witness :
    (∀ s, TransportOption.proxy s ∈ [TransportOption.skipSSLVerify, .proxy "http://b:2", .http2] →
        ∃ u, exampleLib.urlParse s = .ok u) ∧
      (applyOptions ([TransportOption.skipSSLVerify, .proxy "http://b:2", .http2].map
          (fun o => o.toOption exampleLib))
          { req := exampleRequest, env := { exampleEnv with client := exampleTLSClient } }).1.env.client.Transport =
        some (.transport 4
          { Proxy := some { text := "http://b:2", Host := "http://b:2" }
            TLSClientConfig := some { tls.Config.zero with
              ServerName := "example.org", MinVersion := 771, InsecureSkipVerify := true }
            ForceAttemptHTTP2 := true
            DisableKeepAlives := true
            MaxIdleConns := 9 }) ∧
      (applyOptions ([TransportOption.skipSSLVerify, .proxy "http://b:2", .http2].map
          (fun o => o.toOption exampleLib))
          { req := exampleRequest, env := exampleEnv }).1.env.transports = 1 :=
  have hparse : ∀ s, TransportOption.proxy s ∈ [TransportOption.skipSSLVerify, .proxy "http://b:2", .http2] →
      ∃ u, exampleLib.urlParse s = .ok u := by
    intro s hs
    simp only [List.mem_cons, TransportOption.proxy.injEq, reduceCtorEq, false_or, List.not_mem_nil,
      or_false] at hs
    subst hs
    exact ⟨_, rfl⟩
  ⟨hparse,
    (congrArg (fun r => r.1.env.client.Transport)
      (transport_options_share_transport exampleLib .skipSSLVerify [.proxy "http://b:2", .http2]
        { req := exampleRequest, env := { exampleEnv with client := exampleTLSClient } } hparse)).trans
      (by decide),
    (congrArg (fun r => r.1.env.transports)
      (transport_options_share_transport exampleLib .skipSSLVerify [.proxy "http://b:2", .http2]
        { req := exampleRequest, env := exampleEnv } hparse)).trans (by decide)⟩

theorem setHeader_host (req : http.Request) (kv : String × Value) (h : isHostKey kv.1 = true) :
    setHeader req kv = { req with Host := Sprint kv.2 } := by
  unfold isHostKey at h
  simp only [beq_iff_eq] at h
  simp [setHeader, h]

theorem setHeader_transferEncoding (req : http.Request) (kv : String × Value)
    (h : isTransferEncodingKey kv.1 = true) :
    setHeader req kv = { req with TransferEncoding := [Sprint kv.2] } := by
  unfold isTransferEncodingKey at h
  simp only [beq_iff_eq] at h
  have hne : ¬ ToLower (TrimSpace kv.1) = "host" := by rw [h]; decide
  simp [setHeader, h, hne]

theorem setHeader_ordinary (req : http.Request) (kv : String × Value) (h : isOrdinaryKey kv.1 = true) :
    setHeader req kv = { req with Header := req.Header.Set kv.1 (Sprint kv.2) } := by
  unfold isOrdinaryKey isHostKey isTransferEncodingKey at h
  simp only [Bool.and_eq_true, Bool.not_eq_true', beq_eq_false_iff_ne, ne_eq] at h
  simp [setHeader, h.1, h.2]

theorem key_cases (key : String) :
    isHostKey key = true ∨ (isHostKey key = false ∧ isTransferEncodingKey key = true) ∨ isOrdinaryKey key = true := by
  unfold isOrdinaryKey
  cases isHostKey key <;> cases isTransferEncodingKey key <;> simp

theorem foldl_setHeader_Host (l : Map) (req : http.Request) (h : ∀ kv ∈ l, isHostKey kv.1 = false) :
    (l.foldl setHeader req).Host = req.Host := by
  induction l generalizing req with
  | nil => rfl
  | cons kv kvs ih =>
    rw [List.foldl_cons, ih _ (fun x hx => h x (List.mem_cons_of_mem _ hx))]
    have hkv := h kv (List.mem_cons_self _ _)
    rcases key_cases kv.1 with h1 | h1 | h1
    · rw [hkv] at h1; cases h1
    · rw [setHeader_transferEncoding _ _ h1.2]
    · rw [setHeader_ordinary _ _ h1]

theorem foldl_setHeader_TransferEncoding (l : Map) (req : http.Request)
    (h : ∀ kv ∈ l, isHostKey kv.1 = true ∨ isTransferEncodingKey kv.1 = false) :
    (l.foldl setHeader req).TransferEncoding = req.TransferEncoding := by
  induction l generalizing req with
  | nil => rfl
  | cons kv kvs ih =>
    rw [List.foldl_cons, ih _ (fun x hx => h x (List.mem_cons_of_mem _ hx))]
    have hkv := h kv (List.mem_cons_self _ _)
    rcases key_cases kv.1 with h1 | h1 | h1
    · rw [setHeader_host _ _ h1]
    · rcases hkv with h2 | h2
      · rw [h1.1] at h2; cases h2
      · rw [h1.2] at h2; cases h2
    · rw [setHeader_ordinary _ _ h1]

theorem foldl_setHeader_Header (l : Map) (req : http.Request) (name : String)
    (h : ∀ kv ∈ l, isOrdinaryKey kv.1 = true → CanonicalMIMEHeaderKey kv.1 ≠ name) :
    (l.foldl setHeader req).Header name = req.Header name := by
  induction l generalizing req with
  | nil => rfl
  | cons kv kvs ih =>
    rw [List.foldl_cons, ih _ (fun x hx => h x (List.mem_cons_of_mem _ hx))]
    have hkv := h kv (List.mem_cons_self _ _)
    rcases key_cases kv.1 with h1 | h1 | h1
    · rw [setHeader_host _ _ h1]
    · rw [setHeader_transferEncoding _ _ h1.2]
    · rw [setHeader_ordinary _ _ h1]
      simp only [http.Header.Set]
      rw [if_neg (Ne.symm (hkv h1))]

theorem foldl_setHeader_filter (l : Map) (req : http.Request) :
    (l.foldl setHeader req).Header =
      ((l.filter (fun kv => isOrdinaryKey kv.1)).foldl setHeader req).Header := by
  have hgen : ∀ (l : Map) (req1 req2 : http.Request), req1.Header = req2.Header →
      (l.foldl setHeader req1).Header =
        ((l.filter (fun kv => isOrdinaryKey kv.1)).foldl setHeader req2).Header := by
    intro l
    induction l with
    | nil => intro req1 req2 h; exact h
    | cons kv kvs ih =>
      intro req1 req2 h
      rw [List.foldl_cons]
      rcases key_cases kv.1 with h1 | h1 | h1
      · have hno : isOrdinaryKey kv.1 = false := by simp [isOrdinaryKey, h1]
        rw [List.filter_cons_of_neg (by simp [hno])]
        exact ih _ _ (by rw [setHeader_host _ _ h1]; exact h)
      · have hno : isOrdinaryKey kv.1 = false := by simp [isOrdinaryKey, h1.2]
        rw [List.filter_cons_of_neg (by simp [hno])]
        exact ih _ _ (by rw [setHeader_transferEncoding _ _ h1.2]; exact h)
      · rw [List.filter_cons_of_pos (by simp [h1]), List.foldl_cons]
        exact ih _ _ (by rw [setHeader_ordinary _ _ h1, setHeader_ordinary _ _ h1]; simp only [h])
  exact hgen l req req rfl

theorem isTransferEncodingKey_of_isHostKey (key : String) (h : isHostKey key = true) :
    isTransferEncodingKey key = false := by
  unfold isHostKey at h
  unfold isTransferEncodingKey
  simp only [beq_iff_eq] at h
  rw [h]
  decide

/-- The key `" host"` does not equal `host` ignoring case, yet `WithHeaders` sets no header
line for it and rewrites the host; and of the two keys `a` and `A` of one map only the one
visited last leaves its value in the header they share, in whichever order the two are
visited. -/
theorem WithHeaders_trims_and_merges :
    ToLower " host" ≠ "host" ∧
      (WithHeaders [(" host", .str "example.org")] { req := exampleRequest, env := exampleEnv }).1.req.Header.Get
        " host" = "" ∧
      (WithHeaders [(" host", .str "example.org")] { req := exampleRequest, env := exampleEnv }).1.req.Host =
        "example.org" ∧
      (WithHeaders [("a", .str "1"), ("A", .str "2")] { req := exampleRequest, env := exampleEnv }).1.req.Header
        (CanonicalMIMEHeaderKey "a") = some ["2"] ∧
      (WithHeaders [("A", .str "2"), ("a", .str "1")] { req := exampleRequest, env := exampleEnv }).1.req.Header
        (CanonicalMIMEHeaderKey "A") = some ["1"] := by
  decide

/-- Claim C5, as amended: `WithHeaders` never fails, and for every entry (`key`, `value`) of
the map, visited after the entries `before` and ahead of the entries `after`: if `key`,
trimmed and in lower case, is `host`, the request's `Host` is the value as text, unless a
later entry is a host key too; if it is `transfer-encoding`, the request's
`TransferEncoding` is the one-element list of the value as text, unless a later entry is a
transfer-encoding key too; otherwise the header under the canonical form of `key` holds
exactly the value as text, whatever it held before, unless a later ordinary key has the same
canonical form.  No header line is set for host and transfer-encoding keys: the header is
the one the map without them gives. -/
theorem WithHeaders_entry (st : State) (before after : Map) (key : String) (value : Value) :
    (WithHeaders (before ++ (key, value) :: after) st).2 = none ∧
      (isHostKey key = true → (∀ kv ∈ after, isHostKey kv.1 = false) →
        (WithHeaders (before ++ (key, value) :: after) st).1.req.Host = Sprint value) ∧
      (isTransferEncodingKey key = true → (∀ kv ∈ after, isTransferEncodingKey kv.1 = false) →
        (WithHeaders (before ++ (key, value) :: after) st).1.req.TransferEncoding = [Sprint value]) ∧
      (isOrdinaryKey key = true →
        (∀ kv ∈ after, isOrdinaryKey kv.1 = true →
          CanonicalMIMEHeaderKey kv.1 ≠ CanonicalMIMEHeaderKey key) →
        (WithHeaders (before ++ (key, value) :: after) st).1.req.Header (CanonicalMIMEHeaderKey key) =
          some [Sprint value]) ∧
      (WithHeaders (before ++ (key, value) :: after) st).1.req.Header =
        (WithHeaders ((before ++ (key, value) :: after).filter (fun kv => isOrdinaryKey kv.1)) st).1.req.Header := by
  refine ⟨rfl, ?_, ?_, ?_, ?_⟩
  · intro hkey hafter
    simp only [WithHeaders, List.foldl_append, List.foldl_cons]
    rw [foldl_setHeader_Host after _ hafter, setHeader_host _ _ hkey]
  · intro hkey hafter
    simp only [WithHeaders, List.foldl_append, List.foldl_cons]
    rw [foldl_setHeader_TransferEncoding after _ (fun kv hkv => Or.inr (hafter kv hkv)),
      setHeader_transferEncoding _ _ hkey]
  · intro hkey hafter
    simp only [WithHeaders, List.foldl_append, List.foldl_cons]
    rw [foldl_setHeader_Header after (setHeader (List.foldl setHeader st.req before) (key, value))
      (CanonicalMIMEHeaderKey key) hafter, setHeader_ordinary _ (key, value) hkey]
    exact if_pos rfl
  · simp only [WithHeaders]
    exact foldl_setHeader_filter _ _

/-- A map with an ordinary key, a host key written `" Host "` and a transfer-encoding key:
each of the three entries leaves its value where the theorem says. -/
theorem WithHeaders_entry_witness :
    isHostKey " Host " = true ∧
      (WithHeaders ([("X-Id", Value.int 7)] ++ (" Host ", Value.str "example.org") ::
          [("transfer-encoding", Value.str "chunked")])
        { req := exampleRequest, env := exampleEnv }).1.req.Host = "example.org" ∧
      isTransferEncodingKey "transfer-encoding" = true ∧
      (WithHeaders ([("X-Id", Value.int 7), (" Host ", Value.str "example.org")] ++
          ("transfer-encoding", Value.str "chunked") :: [])
        { req := exampleRequest, env := exampleEnv }).1.req.TransferEncoding = ["chunked"] ∧
      isOrdinaryKey "X-Id" = true ∧
      (WithHeaders ([] ++ ("X-Id", Value.int 7) ::
          [(" Host ", Value.str "example.org"), ("transfer-encoding", Value.str "chunked")])
        { req := exampleRequest, env := exampleEnv }).1.req.Header (CanonicalMIMEHeaderKey "X-Id") =
        some ["7"] :=
  ⟨by decide,
    (WithHeaders_entry { req := exampleRequest, env := exampleEnv } [("X-Id", Value.int 7)]
      [("transfer-encoding", Value.str "chunked")] " Host " (Value.str "example.org")).2.1
      (by decide) (by decide),
    by decide,
    (WithHeaders_entry { req := exampleRequest, env := exampleEnv }
      [("X-Id", Value.int 7), (" Host ", Value.str "example.org")] []
      "transfer-encoding" (Value.str "chunked")).2.2.1 (by decide) (by decide),
    by decide,
    (WithHeaders_entry { req := exampleRequest, env := exampleEnv } []
      [(" Host ", Value.str "example.org"), ("transfer-encoding", Value.str "chunked")]
      "X-Id" (Value.int 7)).2.2.2.1 (by decide) (by decide)⟩

theorem utf8_append (a b : String) : utf8 (a ++ b) = utf8 a ++ utf8 b := by
  simp [utf8, String.data_append, List.flatMap_append]

theorem disposition_append (x : String) :
    "Content-Disposition" ++ (": " ++ ("form-data; name=\"" ++ x)) =
      "Content-Disposition: form-data; name=\"" ++ x := by
  rw [← String.append_assoc, ← String.append_assoc]
  rfl

theorem CreateFormFile_Write (w : multipart.Writer) (fieldname filename : String) (content : Bytes) :
    (w.CreateFormFile fieldname filename).Write content =
      w.addPart { FieldName := fieldname, FileName := some filename, Content := content } := by
  cases hl : w.lastpart <;>
    simp [multipart.Writer.CreateFormFile, multipart.Writer.CreatePart, multipart.Writer.Write,
      multipart.Writer.addPart, encodeParts, Part.headerLines, String.join, hl, String.append_assoc,
      disposition_append]

theorem WriteField_eq (w : multipart.Writer) (kv : String × Value) :
    w.WriteField kv.1 (Sprint kv.2) = w.addPart (fieldPart kv) := by
  cases hl : w.lastpart <;>
    simp [multipart.Writer.WriteField, multipart.Writer.CreatePart, multipart.Writer.Write,
      multipart.Writer.addPart, encodeParts, Part.headerLines, fieldPart, String.join, hl,
      String.append_assoc, disposition_append]

theorem foldl_addPart (parts : List Part) (w : multipart.Writer) :
    (parts.foldl multipart.Writer.addPart w).boundary = w.boundary ∧
      (parts.foldl multipart.Writer.addPart w).buf = w.buf ++ encodeParts w.boundary (!w.lastpart) parts ∧
      (parts.foldl multipart.Writer.addPart w).lastpart = (w.lastpart || !parts.isEmpty) := by
  induction parts generalizing w with
  | nil => simp [encodeParts]
  | cons p ps ih =>
    obtain ⟨h1, h2, h3⟩ := ih (w.addPart p)
    rw [List.foldl_cons]
    refine ⟨h1, ?_, ?_⟩
    · rw [h2]
      simp [multipart.Writer.addPart, encodeParts]
    · rw [h3]
      simp [multipart.Writer.addPart]

theorem filePart_closeFile (os : OS) (file : Nat) (f : FileField) (h : f.File ≠ some file) :
    filePart (closeFile os file) f = filePart os f := by
  unfold filePart closeFile
  cases hf : f.File with
  | none => rfl
  | some g =>
    have hne : g ≠ file := fun hg => h (by rw [hf, hg])
    simp [hne]

theorem mem_handlesOf (files : Files) (f : FileField) (file : Nat) (hf : f ∈ files)
    (h : f.File = some file) : file ∈ handlesOf files :=
  List.mem_filterMap.mpr ⟨f, hf, h⟩

theorem writeFiles_ok (files : Files) (w : multipart.Writer) (os : OS)
    (hopen : ∀ f ∈ files, f.File = none → f.FilePath ≠ "" → (os.disk f.FilePath).isSome = true)
    (hcopy : ∀ file ∈ handlesOf files, (os.handles file).isSome = true)
    (hnodup : (handlesOf files).Nodup) :
    writeFiles files w os =
      (closeAll os (handlesOf files), .ok ((files.filterMap (filePart os)).foldl multipart.Writer.addPart w)) := by
  induction files generalizing w os with
  | nil => rfl
  | cons f fs ih =>
    have hopen1 : ∀ g ∈ fs, g.File = none → g.FilePath ≠ "" → (os.disk g.FilePath).isSome = true :=
      fun g hg => hopen g (List.mem_cons_of_mem _ hg)
    cases hf : f.File with
    | none =>
      have hh : handlesOf (f :: fs) = handlesOf fs := by
        simp [handlesOf, List.filterMap_cons, hf]
      rw [hh] at hcopy hnodup ⊢
      by_cases hp : f.FilePath = ""
      · have hpart : filePart os f = none := by simp [filePart, hf, hp]
        rw [writeFiles]
        simp only [hf, hp, if_true]
        rw [ih w os hopen1 hcopy hnodup, List.filterMap_cons, hpart]
      · have hsome := hopen f (List.mem_cons_self _ _) hf hp
        obtain ⟨content, hc⟩ := Option.isSome_iff_exists.mp hsome
        have hpart : filePart os f =
            some { FieldName := f.FieldName, FileName := some f.FileName, Content := content } := by
          simp [filePart, hf, hp, hc]
        rw [writeFiles]
        simp only [hf, hp, if_false, hc]
        rw [ih _ os hopen1 hcopy hnodup, List.filterMap_cons, hpart, CreateFormFile_Write]
        rfl
    | some file =>
      have hh : handlesOf (f :: fs) = file :: handlesOf fs := by
        simp [handlesOf, List.filterMap_cons, hf]
      rw [hh] at hcopy hnodup ⊢
      have hsome := hcopy file (List.mem_cons_self _ _)
      obtain ⟨opened, hc⟩ := Option.isSome_iff_exists.mp hsome
      have hnot : file ∉ handlesOf fs := (List.nodup_cons.mp hnodup).1
      have hpart : filePart os f =
          some { FieldName := f.FieldName, FileName := some f.FileName, Content := opened.rest } := by
        simp [filePart, hf, hc]
      have hcopy1 : ∀ g ∈ handlesOf fs, ((closeFile os file).handles g).isSome = true := by
        intro g hg
        have hne : g ≠ file := fun h => hnot (h ▸ hg)
        simp only [closeFile, hne, if_false]
        exact hcopy g (List.mem_cons_of_mem _ hg)
      have hparts : fs.filterMap (filePart (closeFile os file)) = fs.filterMap (filePart os) := by
        apply List.filterMap_congr
        intro g hg
        exact filePart_closeFile os file g (fun h => hnot (mem_handlesOf fs g file hg h))
      rw [writeFiles]
      simp only [hf, hc]
      rw [ih _ (closeFile os file) hopen1 hcopy1 (List.nodup_cons.mp hnodup).2, hparts,
        List.filterMap_cons, hpart, CreateFormFile_Write]
      rfl

/-- Claim C8, as amended: when every file field without a handle but with a path names a
file that can be opened, and the handles carried by the file fields are open and pairwise
different (so that every open and copy succeeds; the writes to the buffer cannot fail),
`WithMultipartFiles` succeeds and the request body is the multipart encoding of these parts:
in list order, one file part for every file field with a handle or a non-empty path, with
the field's `FieldName` and `FileName` and as content, for a path, exactly the bytes of the
file, and for a handle the bytes of its file from the handle's read position to the end
(all of them for a handle at the start of its file); file fields with neither are skipped;
then the scalar fields as form parts.  `ContentLength` is the length of that body. -/
theorem WithMultipartFiles_parts (boundary : String) (files : Files) (otherFields : Map) (st : State)
    (hopen : ∀ f ∈ files, f.File = none → f.FilePath ≠ "" → (st.env.os.disk f.FilePath).isSome = true)
    (hcopy : ∀ file ∈ handlesOf files, (st.env.os.handles file).isSome = true)
    (hnodup : (handlesOf files).Nodup) :
    (WithMultipartFiles boundary files otherFields st).2 = none ∧
      (WithMultipartFiles boundary files otherFields st).1.req.Body =
        some (encodeMultipart boundary (files.filterMap (filePart st.env.os) ++ otherFields.map fieldPart)) ∧
      (WithMultipartFiles boundary files otherFields st).1.req.ContentLength =
        Int.ofNat (encodeMultipart boundary
          (files.filterMap (filePart st.env.os) ++ otherFields.map fieldPart)).length := by
  have hfields : ∀ (fields : Map) (w : multipart.Writer),
      fields.foldl (fun writer kv => writer.WriteField kv.1 (Sprint kv.2)) w =
        (fields.map fieldPart).foldl multipart.Writer.addPart w := by
    intro fields
    induction fields with
    | nil => intro w; rfl
    | cons kv kvs ih => intro w; rw [List.foldl_cons, List.map_cons, List.foldl_cons, WriteField_eq, ih]
  have hbuf : ((otherFields.foldl (fun writer kv => writer.WriteField kv.1 (Sprint kv.2))
      ((files.filterMap (filePart st.env.os)).foldl multipart.Writer.addPart
        (multipart.NewWriter boundary))).Close).buf =
      encodeMultipart boundary (files.filterMap (filePart st.env.os) ++ otherFields.map fieldPart) := by
    rw [hfields, ← List.foldl_append]
    obtain ⟨h1, h2, _⟩ := foldl_addPart (files.filterMap (filePart st.env.os) ++ otherFields.map fieldPart)
      (multipart.NewWriter boundary)
    simp only [multipart.Writer.Close]
    rw [h1, h2]
    simp only [encodeMultipart, multipart.NewWriter, List.nil_append, Bool.not_false]
  unfold WithMultipartFiles
  rw [writeFiles_ok files _ st.env.os hopen hcopy hnodup]
  simp only [setBody, hbuf]
  exact ⟨trivial, trivial, trivial⟩

theorem closedFrom_refl (os : OS) : os.closedFrom os :=
  ⟨rfl, fun _ => Or.inr rfl⟩

theorem closedFrom_closeFile (os1 os : OS) (file : Nat) (h : os1.closedFrom os) :
    (closeFile os1 file).closedFrom (closeFile os file) := by
  refine ⟨h.1, fun g => ?_⟩
  by_cases hg : g = file
  · simp [closeFile, hg]
  · simpa [closeFile, hg] using h.2 g

theorem closedFrom_closeFile_left (os1 os : OS) (file : Nat) (h : os1.closedFrom os) :
    (closeFile os1 file).closedFrom os := by
  refine ⟨h.1, fun g => ?_⟩
  by_cases hg : g = file
  · simp [closeFile, hg]
  · simpa [closeFile, hg] using h.2 g

theorem writeFiles_closedFrom (files : Files) (w : multipart.Writer) (os : OS) :
    (writeFiles files w os).1.closedFrom os := by
  induction files generalizing w os with
  | nil => exact closedFrom_refl os
  | cons f fs ih =>
    rw [writeFiles]
    cases hf : f.File with
    | none =>
      simp only
      split
      · exact ih w os
      · split
        · exact closedFrom_refl os
        · exact ih _ os
    | some file =>
      simp only
      split
      · exact closedFrom_closeFile_left os os file (closedFrom_refl os)
      · have h1 := ih ((w.CreateFormFile f.FieldName f.FileName).Write (‹OpenFile›).rest) (closeFile os file)
        exact ⟨h1.1.trans rfl, fun g => by
          rcases h1.2 g with h2 | h2
          · exact Or.inl h2
          · by_cases hg : g = file
            · left; rw [h2]; simp [closeFile, hg]
            · right; rw [h2]; simp [closeFile, hg]⟩

theorem writeFiles_of_closedFrom (files : Files) (w w1 : multipart.Writer) (os1 os os2 : OS)
    (hrel : os1.closedFrom os) (hok : writeFiles files w os1 = (os2, .ok w1)) :
    ∃ os3, writeFiles files w os = (os3, .ok w1) := by
  induction files generalizing w os1 os with
  | nil =>
    simp only [writeFiles, Prod.mk.injEq, Except.ok.injEq] at hok
    exact ⟨os, by rw [writeFiles, hok.2]⟩
  | cons f fs ih =>
    rw [writeFiles] at hok ⊢
    cases hf : f.File with
    | none =>
      simp only [hf] at hok ⊢
      by_cases hp : f.FilePath = ""
      · simp only [hp, if_true] at hok ⊢
        exact ih w os1 os hrel hok
      · simp only [hp, if_false] at hok ⊢
        rw [← hrel.1]
        cases hd : os1.disk f.FilePath with
        | none => rw [hd] at hok; simp at hok
        | some content =>
          rw [hd] at hok
          simp only at hok ⊢
          exact ih _ os1 os hrel hok
    | some file =>
      simp only [hf] at hok ⊢
      cases hh : os1.handles file with
      | none => rw [hh] at hok; simp at hok
      | some content =>
        rw [hh] at hok
        simp only at hok
        have hsame : os.handles file = some content := by
          rcases hrel.2 file with h | h
          · rw [hh] at h; cases h
          · rw [← h, hh]
        rw [hsame]
        simp only
        exact ih _ (closeFile os1 file) (closeFile os file) (closedFrom_closeFile os1 os file hrel) hok

theorem toOption_closedFrom (lib : Lib) (a : BodyOption) (st : State) :
    (a.toOption lib st).1.env.os.closedFrom st.env.os := by
  cases a with
  | string body => exact closedFrom_refl _
  | json body =>
    simp only [BodyOption.toOption, WithJSONBody]
    split <;> exact closedFrom_refl _
  | xml body =>
    simp only [BodyOption.toOption, WithXMLBody]
    split <;> exact closedFrom_refl _
  | form data => exact closedFrom_refl _
  | multipart boundary files otherFields =>
    have h := writeFiles_closedFrom files (multipart.NewWriter boundary) st.env.os
    simp only [BodyOption.toOption, WithMultipartFiles]
    split
    · rename_i os err heq
      rw [heq] at h
      exact h
    · rename_i os writer heq
      rw [heq] at h
      exact h

theorem toOption_of_closedFrom (lib : Lib) (b : BodyOption) (st1 st st2 : State)
    (hrel : st1.env.os.closedFrom st.env.os) (hb : b.toOption lib st1 = (st2, none)) :
    ∃ st3, b.toOption lib st = (st3, none) ∧ st2.req.Body = st3.req.Body ∧
      st2.req.ContentLength = st3.req.ContentLength ∧
      st2.req.Header "Content-Type" = st3.req.Header "Content-Type" := by
  cases b with
  | string body =>
    simp only [BodyOption.toOption, WithStringBody, Prod.mk.injEq, and_true] at hb
    subst hb
    exact ⟨_, rfl, rfl, rfl, rfl⟩
  | json body =>
    simp only [BodyOption.toOption, WithJSONBody] at hb ⊢
    cases hm : lib.jsonMarshal body with
    | error err => rw [hm] at hb; simp at hb
    | ok data =>
      rw [hm] at hb
      simp only [Prod.mk.injEq, and_true] at hb
      subst hb
      exact ⟨_, rfl, rfl, rfl, rfl⟩
  | xml body =>
    simp only [BodyOption.toOption, WithXMLBody] at hb ⊢
    cases hm : lib.xmlMarshal body with
    | error err => rw [hm] at hb; simp at hb
    | ok data =>
      rw [hm] at hb
      simp only [Prod.mk.injEq, and_true] at hb
      subst hb
      exact ⟨_, rfl, rfl, rfl, rfl⟩
  | form data =>
    simp only [BodyOption.toOption, WithFormBody, Prod.mk.injEq, and_true] at hb
    subst hb
    exact ⟨_, rfl, rfl, rfl, rfl⟩
  | multipart boundary files otherFields =>
    simp only [BodyOption.toOption, WithMultipartFiles] at hb ⊢
    rcases hw : writeFiles files (multipart.NewWriter boundary) st1.env.os with ⟨os2, res⟩
    rw [hw] at hb
    cases res with
    | error err => simp at hb
    | ok w1 =>
      simp only [Prod.mk.injEq, and_true] at hb
      subst hb
      obtain ⟨os3, h3⟩ := writeFiles_of_closedFrom files _ w1 _ _ os2 hrel hw
      rw [h3]
      exact ⟨_, rfl, rfl, rfl, rfl⟩

/-- Claim C4: for every two body options A and B (each one of `WithStringBody`,
`WithJSONBody`, `WithXMLBody`, `WithFormBody`, `WithMultipartFiles`), if A succeeds and B
succeeds after it, then B applied alone to the starting state succeeds too, and the
request's body bytes, `ContentLength` and `Content-Type` header after A then B are those
after B alone: nothing of A's body, length or content type is left. -/
theorem last_body_option_wins (lib : Lib) (a b : BodyOption) (st st1 st2 : State)
    (ha : a.toOption lib st = (st1, none)) (hb : b.toOption lib st1 = (st2, none)) :
    ∃ st3, b.toOption lib st = (st3, none) ∧ st2.req.Body = st3.req.Body ∧
      st2.req.ContentLength = st3.req.ContentLength ∧
      st2.req.Header "Content-Type" = st3.req.Header "Content-Type" := by
  have hrel := toOption_closedFrom lib a st
  rw [ha] at hrel
  exact toOption_of_closedFrom lib b st1 st st2 hrel hb

/-- A string body followed by a JSON body leaves the JSON body, its length and its type. -/
theorem last_body_option_wins_witness :
    ∃ st3, (BodyOption.json (.int 42)).toOption exampleLib { req := exampleRequest, env := exampleEnv } =
        (st3, none) ∧
      ((BodyOption.json (.int 42)).toOption exampleLib
        ((BodyOption.string "hello").toOption exampleLib
          { req := exampleRequest, env := exampleEnv }).1).1.req.Body = st3.req.Body ∧
      ((BodyOption.json (.int 42)).toOption exampleLib
        ((BodyOption.string "hello").toOption exampleLib
          { req := exampleRequest, env := exampleEnv }).1).1.req.ContentLength = st3.req.ContentLength ∧
      ((BodyOption.json (.int 42)).toOption exampleLib
        ((BodyOption.string "hello").toOption exampleLib
          { req := exampleRequest, env := exampleEnv }).1).1.req.Header "Content-Type" =
        st3.req.Header "Content-Type" :=
  last_body_option_wins exampleLib (.string "hello") (.json (.int 42))
    { req := exampleRequest, env := exampleEnv } _ _ rfl rfl

theorem extract_closed (lib : Lib) (r : Response) (m : Extraction) :
    (r.extract lib m).1.Body.closed = true ∧
      (r.extract lib m).1.Body.afterClose = r.Body.afterClose := by
  by_cases hc : r.Body.readable = true
  · cases m <;>
      simp only [Response.extract, Response.Text, Response.Bytes, Response.JSON, Response.XML, ReadAll,
        decodeBody, Body.Close, hc, if_true] <;>
      (try split) <;> simp
  · cases m <;>
      simp only [Response.extract, Response.Text, Response.Bytes, Response.JSON, Response.XML, ReadAll,
        decodeBody, Body.Close, hc, if_false] <;>
      (try split) <;> simp

theorem extract_of_not_readable (lib : Lib) (r : Response) (m : Extraction) (h : r.Body.readable = false) :
    (r.extract lib m).2.data = [] ∧ (r.extract lib m).2.value = none ∧
      ((r.extract lib m).2.err.isSome = true ∨ r.Body.afterClose = .endOfStream) := by
  have hk : r.Body.afterClose ≠ .reads := by
    intro hk
    simp [Body.readable, hk] at h
  cases hkind : r.Body.afterClose with
  | reads => exact absurd hkind hk
  | fails =>
    cases m <;>
      simp [Response.extract, Response.Text, Response.Bytes, Response.JSON, Response.XML, ReadAll,
        decodeBody, Body.Close, Body.readAfterClose, h, hkind]
  | endOfStream =>
    cases m <;>
      simp [Response.extract, Response.Text, Response.Bytes, Response.JSON, Response.XML, ReadAll,
        decodeBody, Body.Close, Body.readAfterClose, h, hkind]

theorem extract_of_exhausted (lib : Lib) (r : Response) (m : Extraction) (h : r.Body.unread = [])
    (hjson : (lib.jsonDecode []).1.toOption = none) (hxml : (lib.xmlDecode []).1.toOption = none) :
    (r.extract lib m).2.data = [] ∧ (r.extract lib m).2.value = none := by
  by_cases hc : r.Body.readable = true
  · cases m
    · simp only [Response.extract, Response.Text, ReadAll, hc, if_true, h]
      split <;> simp
    · simp [Response.extract, Response.Bytes, ReadAll, hc, h]
    · rcases hd : lib.jsonDecode [] with ⟨res, n⟩
      rw [hd] at hjson
      cases res with
      | error e => simp [Response.extract, Response.JSON, decodeBody, hc, h, hd]
      | ok v => simp [Except.toOption] at hjson
    · rcases hd : lib.xmlDecode [] with ⟨res, n⟩
      rw [hd] at hxml
      cases res with
      | error e => simp [Response.extract, Response.XML, decodeBody, hc, h, hd]
      | ok v => simp [Except.toOption] at hxml
  · have := extract_of_not_readable lib r m (by simpa using hc)
    exact ⟨this.1, this.2.1⟩

theorem extract_text_bytes_exhausts (lib : Lib) (r : Response) (m : Extraction)
    (hm : m = .text ∨ m = .bytes) :
    (r.extract lib m).1.Body.unread = [] ∨ (r.extract lib m).1.Body.readable = false := by
  by_cases hc : r.Body.readable = true
  · left
    rcases hm with hm | hm <;> subst hm
    · simp only [Response.extract, Response.Text, ReadAll, hc, if_true, Body.Close]
      split <;> simp
    · simp [Response.extract, Response.Bytes, ReadAll, hc, Body.Close]
  · right
    have hcl := extract_closed lib r m
    have hk : r.Body.afterClose ≠ .reads := by
      intro hk
      simp [Body.readable, hk] at hc
    simp only [Body.readable, hcl.1, hcl.2, Bool.not_true, Bool.false_or, beq_eq_false_iff_ne, ne_eq]
    exact hk

set_option maxRecDepth 8000 in
/-- On a body whose `Close` is a no-op, `JSON` closes the body, yet a following `Bytes`
succeeds and returns the 88 bytes the decoder left on the stream. -/
theorem extraction_reads_after_noop_close :
    exampleNopCloserResponse.Body.unread.length = 600 ∧
      (exampleNopCloserResponse.extract exampleLib .json).1.Body.closed = true ∧
      ((exampleNopCloserResponse.extract exampleLib .json).1.extract exampleLib .bytes).2 =
        { data := List.replicate 88 32, value := none, err := none } := by
  decide

/-- Claim C9, as amended: whichever of `Text`, `Bytes`, `JSON` and `XML` is called on a
response, and whether it succeeds or fails, `Close` has been called on the body when it
returns.  So on a body whose reads after `Close` fail or report the end of the stream (the
bodies `net/http` hands out), a second extraction call hands out no bytes and no value: it
returns an error, or an empty result where the read reports the end of the stream.  On a
body whose `Close` is a no-op (`io.NopCloser`) as well, a call after `Text` or `Bytes`
finds the stream used up and hands out no bytes and no value, the decoders failing on an
empty stream; only a call after `JSON` or `XML` can return there what the decoder left on
the stream. -/
theorem extraction_closes_body (lib : Lib) (r : Response) (first second : Extraction) :
    (r.extract lib first).1.Body.closed = true ∧
      (r.Body.afterClose ≠ .reads →
        ((r.extract lib first).1.extract lib second).2.data = [] ∧
        ((r.extract lib first).1.extract lib second).2.value = none ∧
        (((r.extract lib first).1.extract lib second).2.err.isSome = true ∨
          r.Body.afterClose = .endOfStream)) ∧
      ((first = .text ∨ first = .bytes) →
        (lib.jsonDecode []).1.toOption = none → (lib.xmlDecode []).1.toOption = none →
        ((r.extract lib first).1.extract lib second).2.data = [] ∧
        ((r.extract lib first).1.extract lib second).2.value = none) := by
  have h := extract_closed lib r first
  refine ⟨h.1, ?_, ?_⟩
  · intro hk
    have hnot : (r.extract lib first).1.Body.readable = false := by
      simp only [Body.readable, h.1, h.2, Bool.not_true, Bool.false_or, beq_eq_false_iff_ne, ne_eq]
      exact hk
    have h2 := extract_of_not_readable lib (r.extract lib first).1 second hnot
    rw [h.2] at h2
    exact h2
  · intro hfirst hjson hxml
    rcases extract_text_bytes_exhausts lib r first hfirst with hex | hnot
    · exact extract_of_exhausted lib _ second hex hjson hxml
    · have h2 := extract_of_not_readable lib (r.extract lib first).1 second hnot
      exact ⟨h2.1, h2.2.1⟩

/-- On a body of the transport, `Text` after `JSON` returns the error of a read on a closed
body; on the body whose `Close` is a no-op, `Bytes` after `Text` returns nothing. -/
theorem extraction_closes_body_witness :
    (exampleResponse "" [110, 117, 108, 108]).Body.afterClose ≠ .reads ∧
      (((exampleResponse "" [110, 117, 108, 108]).extract exampleLib .json).1.extract exampleLib .text).2 =
        { data := [], value := none, err := some "http: read on closed response body" } ∧
      (exampleLib.jsonDecode []).1.toOption = none ∧ (exampleLib.xmlDecode []).1.toOption = none ∧
      ((exampleNopCloserResponse.extract exampleLib .text).1.extract exampleLib .bytes).2.data = [] :=
  ⟨by decide, by decide, by decide, by decide,
    ((extraction_closes_body exampleLib exampleNopCloserResponse .text .bytes).2.2
      (Or.inl rfl) (by decide) (by decide)).1⟩

theorem isTrimOf_trimSpaceChars (s : List Char) : IsTrimOf (trimSpaceChars s) s := by
  refine ⟨s.takeWhile isSpace, (s.dropWhile isSpace).rtakeWhile isSpace, ?_, ?_, ?_, ?_, ?_⟩
  · rw [List.append_assoc]
    exact trimSpaceChars_decompose s
  · exact fun c hc => mem_takeWhile_imp _ _ _ hc
  · exact fun c hc => List.mem_rtakeWhile_imp hc
  · intro c hc
    unfold trimSpaceChars at hc
    have hpre : (s.dropWhile isSpace).rdropWhile isSpace <+: s.dropWhile isSpace :=
      List.rdropWhile_prefix _ _
    obtain ⟨rest, hrest⟩ := hpre
    cases hd : (s.dropWhile isSpace).rdropWhile isSpace with
    | nil => rw [hd] at hc; simp at hc
    | cons x xs =>
      rw [hd] at hc hrest
      simp only [List.head?_cons, Option.some.injEq] at hc
      subst hc
      have hne : s.dropWhile isSpace ≠ [] := by rw [← hrest]; simp
      have := List.head_dropWhile_not isSpace s hne
      simp only [← hrest, List.cons_append, List.head_cons] at this
      simpa using this
  · intro c hc
    unfold trimSpaceChars at hc
    by_cases hne : (s.dropWhile isSpace).rdropWhile isSpace = []
    · rw [hne] at hc; simp at hc
    · rw [List.getLast?_eq_getLast _ hne] at hc
      simp only [Option.some.injEq] at hc
      subst hc
      simpa using List.rdropWhile_last_not isSpace _ hne

theorem isTrimOf_unique (t s : List Char) (h : IsTrimOf t s) : t = trimSpaceChars s := by
  obtain ⟨a, b, hs, ha, hb, hhead, hlast⟩ := h
  rw [hs, List.append_assoc, trimSpaceChars_append_left _ _ ha, trimSpaceChars_append_right _ _ hb]
  symm
  apply trimSpaceChars_eq_self
  · cases t with
    | nil => rfl
    | cons x xs => simpa using hhead x rfl
  · cases hl : t.getLast? with
    | none => rfl
    | some x => simpa using hlast x hl

theorem forall₂_cookieOfSegment (segments : List (List Char)) :
    List.Forall₂
      (fun segment cookie =>
        IsTrimOf cookie.Name.toList (segment.takeWhile (· != '=')) ∧
        IsTrimOf cookie.Value.toList ((segment.dropWhile (· != '=')).drop 1))
      (segments.filter (fun segment => segment.contains '='))
      (segments.filterMap cookieOfSegment) := by
  induction segments with
  | nil => exact List.Forall₂.nil
  | cons seg segs ih =>
    by_cases h : '=' ∈ seg
    · have hc : seg.contains '=' = true := by simpa using h
      rw [List.filter_cons, List.filterMap_cons]
      simp only [cookieOfSegment, h, hc, if_true]
      exact List.Forall₂.cons ⟨isTrimOf_trimSpaceChars _, isTrimOf_trimSpaceChars _⟩ ih
    · have hc : ¬ seg.contains '=' = true := by simpa using h
      rw [List.filter_cons, List.filterMap_cons]
      simp only [cookieOfSegment, h, hc, if_false]
      exact ih

/-- Claim C2: for every `Cookie` header string, `RequestCookies` returns (it is a total
function, so it never fails) exactly one cookie per `;`-separated segment that holds `=`, in
segment order: the cookies correspond one to one, in order, to the segments holding `=`, the
name of each being the text before the segment's first `=` with the white space at its ends
taken off, and its value the text after that `=` treated the same way (so the empty string
when nothing follows); segments without `=` give no cookie.  The segments are any list of
`;`-free strings whose join by `;` is the header. -/
theorem RequestCookies_per_segment (r : Response) (segments : List (List Char))
    (hjoin : (r.Request.Header.Get "Cookie").toList = [';'].intercalate segments)
    (hfree : ∀ s ∈ segments, ';' ∉ s) :
    List.Forall₂
      (fun segment cookie =>
        IsTrimOf cookie.Name.toList (segment.takeWhile (· != '=')) ∧
        IsTrimOf cookie.Value.toList ((segment.dropWhile (· != '=')).drop 1))
      (segments.filter (fun segment => segment.contains '='))
      r.RequestCookies := by
  unfold Response.RequestCookies
  rw [parseCookieHeader_of_segments _ segments hjoin hfree]
  exact forall₂_cookieOfSegment segments

/-- The header of five segments, with a tab, spaces, a no-break space and an ideographic
space around names and values, gives the three cookies `a=1`, `c=` and `=x`. -/
theorem RequestCookies_per_segment_witness :
    ((exampleResponse "\ta = 1\u00a0; b;c= ;=x\u3000;" []).Request.Header.Get "Cookie").toList =
      [';'].intercalate ["\ta = 1\u00a0".toList, " b".toList, "c= ".toList, "=x\u3000".toList, []] ∧
    (∀ s ∈ ["\ta = 1\u00a0".toList, " b".toList, "c= ".toList, "=x\u3000".toList, []], ';' ∉ s) ∧
    (exampleResponse "\ta = 1\u00a0; b;c= ;=x\u3000;" []).RequestCookies =
      [{ Name := "a", Value := "1" }, { Name := "c", Value := "" }, { Name := "", Value := "x" }] ∧
    List.Forall₂
      (fun segment cookie =>
        IsTrimOf cookie.Name.toList (segment.takeWhile (· != '=')) ∧
        IsTrimOf cookie.Value.toList ((segment.dropWhile (· != '=')).drop 1))
      (["\ta = 1\u00a0".toList, " b".toList, "c= ".toList, "=x\u3000".toList, []].filter
        (fun segment => segment.contains '='))
      (exampleResponse "\ta = 1\u00a0; b;c= ;=x\u3000;" []).RequestCookies :=
  ⟨by decide, by decide, by decide,
    RequestCookies_per_segment (exampleResponse "\ta = 1\u00a0; b;c= ;=x\u3000;" [])
      ["\ta = 1\u00a0".toList, " b".toList, "c= ".toList, "=x\u3000".toList, []] (by decide) (by decide)⟩

set_option maxRecDepth 8000 in
/-- The handle 5 is open on the three-byte file `123` and has been read up to its last
byte: the part made from it holds the one byte `3`, not the three bytes of the file. -/
theorem WithMultipartFiles_copies_from_read_position :
    exampleEnv.os.handles 5 = some { content := [49, 50, 51], offset := 2 } ∧
      (WithMultipartFiles "xyz" [{ FieldName := "raw", FileName := "h.bin", File := some 5, FilePath := "" }] []
        { req := exampleRequest, env := exampleEnv }).2 = none ∧
      (WithMultipartFiles "xyz" [{ FieldName := "raw", FileName := "h.bin", File := some 5, FilePath := "" }] []
        { req := exampleRequest, env := exampleEnv }).1.req.Body.map asText =
        some ("--xyz\r\nContent-Disposition: form-data; name=\"raw\"; filename=\"h.bin\"\r\n" ++
          "Content-Type: application/octet-stream\r\n\r\n3\r\n--xyz--\r\n") := by
  decide

set_option maxRecDepth 8000 in
/-- An upload from a path with a quote and a line feed in the file name, from a handle at the
start of its file, and of an empty field, with one scalar field: two file parts with the
bytes of the files, then the scalar field, 309 bytes in all. -/
theorem WithMultipartFiles_parts_witness :
    (∀ f ∈ exampleFiles, f.File = none → f.FilePath ≠ "" → (exampleEnv.os.disk f.FilePath).isSome = true) ∧
      (∀ file ∈ handlesOf exampleFiles, (exampleEnv.os.handles file).isSome = true) ∧
      (handlesOf exampleFiles).Nodup ∧
      (WithMultipartFiles "xyz" exampleFiles [("upload", .str "true")]
        { req := exampleRequest, env := exampleEnv }).1.req.Body =
        some (encodeMultipart "xyz"
          [{ FieldName := "file", FileName := some "1\"1\n.txt", Content := [104, 105] },
           { FieldName := "raw", FileName := some "h.bin", Content := [97, 98, 99] },
           { FieldName := "upload", FileName := none, Content := [116, 114, 117, 101] }]) ∧
      (WithMultipartFiles "xyz" exampleFiles [("upload", .str "true")]
        { req := exampleRequest, env := exampleEnv }).1.req.Body.map asText =
        some ("--xyz\r\nContent-Disposition: form-data; name=\"file\"; filename=\"1\\\"1%0A.txt\"\r\n" ++
          "Content-Type: application/octet-stream\r\n\r\nhi\r\n" ++
          "--xyz\r\nContent-Disposition: form-data; name=\"raw\"; filename=\"h.bin\"\r\n" ++
          "Content-Type: application/octet-stream\r\n\r\nabc\r\n" ++
          "--xyz\r\nContent-Disposition: form-data; name=\"upload\"\r\n\r\ntrue\r\n--xyz--\r\n") ∧
      (WithMultipartFiles "xyz" exampleFiles [("upload", .str "true")]
        { req := exampleRequest, env := exampleEnv }).1.req.ContentLength = 309 :=
  ⟨by decide, by decide, by decide,
    ((WithMultipartFiles_parts "xyz" exampleFiles [("upload", .str "true")]
      { req := exampleRequest, env := exampleEnv } (by decide) (by decide) (by decide)).2.1).trans
      (congrArg (fun parts => some (encodeMultipart "xyz" parts)) (by decide)),
    by decide, by decide⟩

end Requests
